import Mathlib

/-!
# Sprite pipeline: quantizer/tiler and asset codec

A shallow embedding of `pipeline.hpp`: `build_palette_and_tiles`,
`write_sprite_assets` and `read_sprite_assets`, with the properties of the
specification stated and settled over it.

Conventions of the embedding.

* `uint8_t` and `uint32_t` values are natural numbers below 2^8 and 2^32
  (`Byte`, `U32`); every conversion to one of them is an explicit `%`.
* `std::array<T, n>` is a list of exactly `n` elements (`StdArray`). A store
  through `operator[]` at an index outside the array changes none of its
  elements; the indices of all stores made to the palette are listed by
  `palette_stores`, so that the bounds of the stores can be examined apart
  from the contents of the array.
* A load from the vector `pixels` at an index outside it (line 103) and a
  store to the vector `tiles` at an index outside it (line 112) are undefined
  behaviour: the source checks neither. The embedding stops at them, with
  `QuantError.pixel_out_of_range` and `QuantError.tile_out_of_range`. These
  two outcomes stand for a run that has no defined result, not for an
  exception of the source. A result of the function is asserted only under
  hypotheses that exclude both: a vector of `width * height` pixels excludes
  the first, a tile count `(width/8) * (height/8)` below 2^32 the second.
* C++ exceptions are the `error` results of `Except`.
-/

namespace Pipeline

/-! ## Machine integers -/

/-- An 8-bit unsigned value (`uint8_t`, `char`). -/
abbrev Byte := Fin 256

/-- A 32-bit unsigned value (`uint32_t`). -/
abbrev U32 := Fin 4294967296

/-- The conversion `uint32_t(n)` of a `size_t` value: reduction modulo 2^32. -/
def toU32 (n : Nat) : U32 := ⟨n % 4294967296, Nat.mod_lt _ (by decide)⟩

/-- The conversion of an unsigned value to `uint8_t`: reduction modulo 2^8. -/
def toU8 (n : Nat) : Byte := ⟨n % 256, Nat.mod_lt _ (by decide)⟩

/-! ## Data model -/

/-- The pixel and colour type `glm::u8vec4`: four 8-bit channels. -/
structure u8vec4 where
  r : Byte
  g : Byte
  b : Byte
  a : Byte
deriving DecidableEq, Repr

/-- The image size `glm::uvec2`: two 32-bit unsigned components. -/
structure uvec2 where
  x : U32
  y : U32
deriving DecidableEq, Repr

/-- The fixed-size array `std::array<T, n>`: exactly `n` elements. -/
def StdArray (α : Type) (n : Nat) : Type := { l : List α // l.length = n }

instance (α : Type) (n : Nat) [DecidableEq α] : DecidableEq (StdArray α n) :=
  inferInstanceAs (DecidableEq { l : List α // l.length = n })

/-- The value-initialised array: every element is `v`. -/
def StdArray.fill {α : Type} (n : Nat) (v : α) : StdArray α n :=
  ⟨List.replicate n v, List.length_replicate n v⟩

/-- The element at index `i`, if `i` is inside the array. -/
def StdArray.get? {α : Type} {n : Nat} (arr : StdArray α n) (i : Nat) : Option α :=
  arr.val[i]?

/-- The store `arr[i] = v`; an index outside the array changes no element. -/
def StdArray.set {α : Type} {n : Nat} (arr : StdArray α n) (i : Nat) (v : α) :
    StdArray α n :=
  ⟨arr.val.set i v, by rw [List.length_set]; exact arr.property⟩

/-- Modelled from the spec: `PPU466::Palette` is declared in `PPU466.hpp`,
which is not among the sources; the spec gives it as a fixed-size ordered
sequence of exactly 4 RGBA8 colour slots. -/
abbrev Palette := StdArray u8vec4 4

/-- Modelled from the spec: `PPU466::Tile` is declared in `PPU466.hpp`, which
is not among the sources; the spec gives it as two parallel 8-row bitplanes
(low bit `bit0`, high bit `bit1`), each row one byte wide. -/
structure Tile where
  bit0 : StdArray Byte 8
  bit1 : StdArray Byte 8
deriving DecidableEq

/-- The result `PackedTiles` of the quantizer. -/
structure PackedTiles where
  palette : Palette
  tiles : List Tile
deriving DecidableEq

/-- The colour `glm::u8vec4(0,0,0,0)`. -/
def transparent : u8vec4 := ⟨0, 0, 0, 0⟩

/-- The value-initialised tile `PPU466::Tile tile{}`. -/
def zero_tile : Tile := ⟨StdArray.fill 8 0, StdArray.fill 8 0⟩

/-! ## Quantizer / tiler -/

/-- The failures of `build_palette_and_tiles`: its two exceptions, and the
two accesses outside a vector, which are undefined behaviour in the source. -/
inductive QuantError where
  /-- "Image has more than 3 unique colors." -/
  | too_many_colors
  /-- "Found opaque pixel not in 3-color palette." -/
  | not_in_palette
  /-- A load `pixels[i]` with `i` outside the vector (line 103). -/
  | pixel_out_of_range
  /-- A store `tiles[i] = tile` with `i` outside the vector (line 112). -/
  | tile_out_of_range
deriving DecidableEq, Repr

/-- The colour `{px.r, px.g, px.b, 0xff}` that both passes compare. -/
def solid_of (px : u8vec4) : u8vec4 := ⟨px.r, px.g, px.b, 255⟩

/-- The inner search `for (auto& u : unique_clr) if (u == c) seen = true`. -/
def seen_in (unique_clr : List u8vec4) (c : u8vec4) : Bool :=
  unique_clr.any (fun u => u == c)

/-- The first pass (lines 42-62): the loop over all pixels, carrying
`unique_clr`. -/
def scan_pixels : List u8vec4 → List u8vec4 → Except QuantError (List u8vec4)
  | [], unique_clr => .ok unique_clr
  | px :: rest, unique_clr =>
    if px.a.val < 128 then scan_pixels rest unique_clr
    else
      let c := solid_of px
      if seen_in unique_clr c then scan_pixels rest unique_clr
      else
        let pushed := unique_clr ++ [c]
        if pushed.length > 3 then .error .too_many_colors
        else scan_pixels rest pushed

/-- Every store made to `palette`, in program order, as (index, value):
line 37, the loop of lines 64-66 and the loop of lines 68-70, whose bound is
`palette.size()`, that is 4. -/
def palette_stores (unique_clr : List u8vec4) : List (Nat × u8vec4) :=
  (0, transparent)
    :: (unique_clr.enum.map (fun ic => (1 + ic.1, ic.2))
      ++ (List.range' unique_clr.length (4 - unique_clr.length)).map
          (fun i => (1 + i, transparent)))

/-- The palette after lines 36-70: the value-initialised array with all the
stores applied. -/
def fill_palette (unique_clr : List u8vec4) : Palette :=
  (palette_stores unique_clr).foldl (fun p s => p.set s.1 s.2)
    (StdArray.fill 4 transparent)

/-- The lambda `palette_index_of` (lines 72-80). -/
def palette_index_of (palette : Palette) (px : u8vec4) : Except QuantError Nat :=
  if px.a.val < 128 then .ok 0
  else
    let c := solid_of px
    match (List.range 3).find? (fun i => palette.get? (1 + i) == some c) with
    | some i => .ok (1 + i)
    | none => .error .not_in_palette

/-- The lambda `src_index` (lines 89-91), computed in `size_t`. -/
def src_index (size : uvec2) (x y : Nat) : Nat := y * size.x.val + x

/-- The value `(idx & mask) ? 1u : 0u`. -/
def bit_of (idx mask : Nat) : Nat := if idx &&& mask = 0 then 0 else 1

/-- One turn of the loop over `x` (lines 101-108), carrying `(b0, b1)`. -/
def row_step (palette : Palette) (pixels : List u8vec4) (size : uvec2)
    (tx img_y : Nat) (acc : Byte × Byte) (x : Nat) : Except QuantError (Byte × Byte) :=
  let img_x := (tx * 8 + x) % 4294967296
  match pixels[src_index size img_x img_y]? with
  | none => .error .pixel_out_of_range
  | some px =>
    match palette_index_of palette px with
    | .error e => .error e
    | .ok idx =>
      .ok (toU8 (acc.1.val ||| (bit_of idx 1 <<< x)), toU8 (acc.2.val ||| (bit_of idx 2 <<< x)))

/-- One turn of the loop over `y` (lines 97-111), carrying `tile`. -/
def tile_step (palette : Palette) (pixels : List u8vec4) (size : uvec2)
    (tx ty : Nat) (tile : Tile) (y : Nat) : Except QuantError Tile :=
  let img_y := (ty * 8 + y) % 4294967296
  match (List.range 8).foldlM (row_step palette pixels size tx img_y) ((0 : Byte), (0 : Byte)) with
  | .error e => .error e
  | .ok b => .ok ⟨tile.bit0.set y b.1, tile.bit1.set y b.2⟩

/-- The tile of grid cell `(tx, ty)` (lines 95-111). -/
def build_tile (palette : Palette) (pixels : List u8vec4) (size : uvec2)
    (tx ty : Nat) : Except QuantError Tile :=
  (List.range 8).foldlM (tile_step palette pixels size tx ty) zero_tile

/-- One turn of the loop over `tx` (lines 94-113), carrying `tiles`; the
index `ty * tiles_x + tx` is computed in `uint32_t`, and the store of line 112
is made without a check: outside the vector it is undefined behaviour. -/
def tiles_step (palette : Palette) (pixels : List u8vec4) (size : uvec2)
    (ty : Nat) (tiles : List Tile) (tx : Nat) : Except QuantError (List Tile) :=
  match build_tile palette pixels size tx ty with
  | .error e => .error e
  | .ok tile =>
    if (ty * (size.x.val / 8) + tx) % 4294967296 < tiles.length then
      .ok (tiles.set ((ty * (size.x.val / 8) + tx) % 4294967296) tile)
    else .error .tile_out_of_range

/-- The two outer loops (lines 93-114) over the vector `tiles` after
`tiles.resize(tiles_x * tiles_y)`, the product computed in `uint32_t`. -/
def build_tiles (palette : Palette) (pixels : List u8vec4) (size : uvec2) :
    Except QuantError (List Tile) :=
  let tiles_x := size.x.val / 8
  let tiles_y := size.y.val / 8
  (List.range tiles_y).foldlM
    (fun tiles ty => (List.range tiles_x).foldlM (tiles_step palette pixels size ty) tiles)
    (List.replicate ((tiles_x * tiles_y) % 4294967296) zero_tile)

/-- The function `build_palette_and_tiles` (lines 31-116). -/
def build_palette_and_tiles (size : uvec2) (pixels : List u8vec4) :
    Except QuantError PackedTiles :=
  match scan_pixels pixels [] with
  | .error e => .error e
  | .ok unique_clr =>
    let palette := fill_palette unique_clr
    match build_tiles palette pixels size with
    | .error e => .error e
    | .ok tiles => .ok ⟨palette, tiles⟩

/-! ## Asset codec -/

/-- The in-memory asset `SpriteAsset`; the name is a string of bytes. -/
structure SpriteAsset where
  name : List Byte
  palettes : List Palette
  tiles : List Tile
deriving DecidableEq

/-- The descriptor `StoredSprite`: three half-open ranges, six `uint32_t`. -/
structure StoredSprite where
  name_begin : U32
  name_end : U32
  pals_begin : U32
  pals_end : U32
  tiles_begin : U32
  tiles_end : U32
deriving DecidableEq, Repr

/-- Modelled from the spec: the streams of the chunk primitive of
`read_write_chunk.hpp`, which is not among the sources. A stream is a
sequence of raw bytes and of length fields; the spec does not give the width
or encoding of a chunk's length field, so a length field is one cell that
holds the length. -/
inductive Cell where
  | byte (b : Byte)
  | length (n : Nat)
deriving DecidableEq, Repr

/-- A stream: the cells still to be read (or the cells written). -/
abbrev Stream := List Cell

/-- Modelled from the spec: the raw form of the element type `T` of a chunk
(`read_write_chunk.hpp` is not among the sources): its size in bytes, the
bytes written for one element, and the element held by `size` bytes. The
spec gives the sizes 1, 16, 16 and 24 bytes and the order of the fields. -/
structure Layout (α : Type) where
  size : Nat
  put : α → List Byte
  get : List Byte → α

/-- The raw form of a `char`: the byte itself. -/
def byte_layout : Layout Byte where
  size := 1
  put := fun b => [b]
  get := fun l => l.getD 0 0

/-- The four bytes r, g, b, a of a colour. -/
def put_color (c : u8vec4) : List Byte := [c.r, c.g, c.b, c.a]

/-- The colour held by four bytes. -/
def get_color (l : List Byte) : u8vec4 := ⟨l.getD 0 0, l.getD 1 0, l.getD 2 0, l.getD 3 0⟩

/-- The raw form of a palette: its four RGBA8 slots in order, 16 bytes. -/
def palette_layout : Layout Palette where
  size := 16
  put := fun p => p.val.flatMap put_color
  get := fun l =>
    ⟨[get_color l, get_color (l.drop 4), get_color (l.drop 8), get_color (l.drop 12)], rfl⟩

/-- The array held by eight bytes. -/
def get_plane (l : List Byte) : StdArray Byte 8 :=
  ⟨[l.getD 0 0, l.getD 1 0, l.getD 2 0, l.getD 3 0,
    l.getD 4 0, l.getD 5 0, l.getD 6 0, l.getD 7 0], rfl⟩

/-- The raw form of a tile: the rows of `bit0`, then those of `bit1`,
16 bytes. -/
def tile_layout : Layout Tile where
  size := 16
  put := fun t => t.bit0.val ++ t.bit1.val
  get := fun l => ⟨get_plane l, get_plane (l.drop 8)⟩

/-- The four bytes of a `uint32_t`, least significant first. -/
def put_u32 (v : U32) : List Byte :=
  [toU8 v.val, toU8 (v.val / 256), toU8 (v.val / 65536), toU8 (v.val / 16777216)]

/-- The `uint32_t` held by four bytes, least significant first. -/
def get_u32 (l : List Byte) : U32 :=
  toU32 ((l.getD 0 0).val + 256 * (l.getD 1 0).val + 65536 * (l.getD 2 0).val
    + 16777216 * (l.getD 3 0).val)

/-- The raw form of a descriptor: its six fields in declaration order,
24 bytes. -/
def sprite_layout : Layout StoredSprite where
  size := 24
  put := fun m => put_u32 m.name_begin ++ put_u32 m.name_end ++ put_u32 m.pals_begin
    ++ put_u32 m.pals_end ++ put_u32 m.tiles_begin ++ put_u32 m.tiles_end
  get := fun l => ⟨get_u32 l, get_u32 (l.drop 4), get_u32 (l.drop 8), get_u32 (l.drop 12),
    get_u32 (l.drop 16), get_u32 (l.drop 20)⟩

/-- The failures of `read_sprite_assets`: those of the chunk primitive and
its own four exceptions. -/
inductive ReadError where
  /-- The stream ends before a chunk's tag and length are read. -/
  | header_failed
  /-- The tag read is not the expected tag. -/
  | tag_mismatch
  /-- The length is not a multiple of the element size. -/
  | bad_length
  /-- The stream ends before the payload is read. -/
  | data_failed
  /-- "Trailing junk at end of file." -/
  | trailing_junk
  /-- "Bad name range." -/
  | bad_name_range
  /-- "Bad palette range." -/
  | bad_palette_range
  /-- "Bad tile range." -/
  | bad_tile_range
deriving DecidableEq, Repr

/-- Reads `n` raw bytes from the front of a stream. -/
def take_bytes : Nat → Stream → Option (List Byte × Stream)
  | 0, s => some ([], s)
  | n + 1, .byte b :: s =>
    match take_bytes n s with
    | some r => some (b :: r.1, r.2)
    | none => none
  | _ + 1, _ => none

/-- The elements held by the payload: `count` consecutive groups of
`L.size` bytes. -/
def split_elems {α : Type} (L : Layout α) : Nat → List Byte → List α
  | 0, _ => []
  | count + 1, bytes => L.get bytes :: split_elems L count (bytes.drop L.size)

/-- Modelled from the spec: `write_chunk` of `read_write_chunk.hpp`, which
is not among the sources: it writes the tag followed by a length field
followed by the raw bytes. -/
def write_chunk {α : Type} (L : Layout α) (tag : List Byte) (data : List α) : Stream :=
  tag.map Cell.byte ++ Cell.length (data.flatMap L.put).length :: (data.flatMap L.put).map Cell.byte

/-- Modelled from the spec: `read_chunk` of `read_write_chunk.hpp`, which is
not among the sources: it reads and validates the tag, reads the length, and
reads that many bytes into the output; it fails if the tag does not match,
if the length is malformed, or if the stream ends early. The result is the
vector read and the rest of the stream. -/
def read_chunk {α : Type} (L : Layout α) (src : Stream) (tag : List Byte) :
    Except ReadError (List α × Stream) :=
  match take_bytes 4 src with
  | none => .error .header_failed
  | some (t, s1) =>
    if t ≠ tag then .error .tag_mismatch
    else
      match s1 with
      | .length n :: s2 =>
        if n % L.size ≠ 0 then .error .bad_length
        else
          match take_bytes n s2 with
          | none => .error .data_failed
          | some (bytes, s3) => .ok (split_elems L (n / L.size) bytes, s3)
      | _ => .error .header_failed

/-- The tag "name". -/
def tag_name : List Byte := [110, 97, 109, 101]

/-- The tag "pal0". -/
def tag_pal0 : List Byte := [112, 97, 108, 48]

/-- The tag "tile". -/
def tag_tile : List Byte := [116, 105, 108, 101]

/-- The tag "sprt". -/
def tag_sprt : List Byte := [115, 112, 114, 116]

/-- The four pooled vectors `names`, `pals`, `tiles`, `metas`. -/
structure Pools where
  names : List Byte
  pals : List Palette
  tiles : List Tile
  metas : List StoredSprite
deriving DecidableEq

/-- One turn of the loop of `write_sprite_assets` (lines 136-152). -/
def write_step (p : Pools) (a : SpriteAsset) : Pools :=
  let names := p.names ++ a.name
  let pals := p.pals ++ a.palettes
  let tiles := p.tiles ++ a.tiles
  { names := names
    pals := pals
    tiles := tiles
    metas := p.metas ++
      [{ name_begin := toU32 p.names.length, name_end := toU32 names.length
         pals_begin := toU32 p.pals.length, pals_end := toU32 pals.length
         tiles_begin := toU32 p.tiles.length, tiles_end := toU32 tiles.length }] }

/-- The pools after the loop of `write_sprite_assets`. -/
def collect_pools (assets : List SpriteAsset) : Pools :=
  assets.foldl write_step ⟨[], [], [], []⟩

/-- The four `write_chunk` calls (lines 154-157). -/
def write_pools (p : Pools) : Stream :=
  write_chunk byte_layout tag_name p.names
    ++ (write_chunk palette_layout tag_pal0 p.pals
      ++ (write_chunk tile_layout tag_tile p.tiles
        ++ write_chunk sprite_layout tag_sprt p.metas))

/-- The function `write_sprite_assets` (lines 127-158): the cells written to
the output stream. -/
def write_sprite_assets (assets : List SpriteAsset) : Stream :=
  write_pools (collect_pools assets)

/-- The elements `[first, last)` of a vector, as
`assign(v.begin() + first, v.begin() + last)` copies them. -/
def slice {α : Type} (l : List α) (first last : Nat) : List α :=
  (l.drop first).take (last - first)

/-- The asset that lines 185-194 build for the descriptor `m`. -/
def asset_of (names : List Byte) (pals : List Palette) (tiles : List Tile)
    (m : StoredSprite) : SpriteAsset :=
  { name := slice names m.name_begin.val m.name_end.val
    palettes := slice pals m.pals_begin.val m.pals_end.val
    tiles := slice tiles m.tiles_begin.val m.tiles_end.val }

/-- One turn of the loop of `read_sprite_assets` (lines 177-197), carrying
`out`. -/
def read_step (names : List Byte) (pals : List Palette) (tiles : List Tile)
    (out : List SpriteAsset) (m : StoredSprite) : Except ReadError (List SpriteAsset) :=
  if ¬ (m.name_begin.val ≤ m.name_end.val ∧ m.name_end.val ≤ names.length) then
    .error .bad_name_range
  else if ¬ (m.pals_begin.val ≤ m.pals_end.val ∧ m.pals_end.val ≤ pals.length) then
    .error .bad_palette_range
  else if ¬ (m.tiles_begin.val ≤ m.tiles_end.val ∧ m.tiles_end.val ≤ tiles.length) then
    .error .bad_tile_range
  else .ok (out ++ [asset_of names pals tiles m])

/-- The loop of `read_sprite_assets` over `metas` (lines 175-198). -/
def read_pools (p : Pools) : Except ReadError (List SpriteAsset) :=
  p.metas.foldlM (read_step p.names p.pals p.tiles) []

/-- The function `read_sprite_assets` (lines 160-199). -/
def read_sprite_assets (src : Stream) : Except ReadError (List SpriteAsset) :=
  match read_chunk byte_layout src tag_name with
  | .error e => .error e
  | .ok (names, s1) =>
    match read_chunk palette_layout s1 tag_pal0 with
    | .error e => .error e
    | .ok (pals, s2) =>
      match read_chunk tile_layout s2 tag_tile with
      | .error e => .error e
      | .ok (tiles, s3) =>
        match read_chunk sprite_layout s3 tag_sprt with
        | .error e => .error e
        | .ok (metas, s4) =>
          match s4 with
          | _ :: _ => .error .trailing_junk
          | [] => read_pools ⟨names, pals, tiles, metas⟩

/-! ## Auxiliary definitions for the statements -/

/-- A raw form is well formed: elements have a positive size, every element
is written as `size` bytes, and the bytes written for an element hold it. -/
def Layout.Lawful {α : Type} (L : Layout α) : Prop :=
  0 < L.size ∧ (∀ x, (L.put x).length = L.size) ∧ (∀ x rest, L.get (L.put x ++ rest) = x)

/-- The descriptors that the loop of `write_sprite_assets` appends when it
starts with pools of sizes `n`, `p` and `t`. -/
def descriptors : Nat → Nat → Nat → List SpriteAsset → List StoredSprite
  | _, _, _, [] => []
  | n, p, t, a :: rest =>
    { name_begin := toU32 n, name_end := toU32 (n + a.name.length)
      pals_begin := toU32 p, pals_end := toU32 (p + a.palettes.length)
      tiles_begin := toU32 t, tiles_end := toU32 (t + a.tiles.length) }
      :: descriptors (n + a.name.length) (p + a.palettes.length) (t + a.tiles.length) rest

/-- The three ranges of a descriptor. -/
inductive RangeField where
  | name
  | pals
  | tiles
deriving DecidableEq, Repr

/-- The descriptor `m` with the end field of range `f` replaced by `v`. -/
def set_end (f : RangeField) (v : U32) (m : StoredSprite) : StoredSprite :=
  match f with
  | .name => { m with name_end := v }
  | .pals => { m with pals_end := v }
  | .tiles => { m with tiles_end := v }

/-- The size of the pool that range `f` addresses. -/
def pool_size (f : RangeField) (p : Pools) : Nat :=
  match f with
  | .name => p.names.length
  | .pals => p.pals.length
  | .tiles => p.tiles.length

/-- The exception of `read_sprite_assets` for range `f`. -/
def range_error (f : RangeField) : ReadError :=
  match f with
  | .name => .bad_name_range
  | .pals => .bad_palette_range
  | .tiles => .bad_tile_range

/-- The container written for `assets` in which the end field of range `f`
of descriptor `k` holds `v` instead: the four chunks of the pools, the
descriptor pool with that one field replaced. -/
def corrupted_container (assets : List SpriteAsset) (k : Nat) (f : RangeField) (v : U32) :
    Stream :=
  write_pools
    { names := (collect_pools assets).names
      pals := (collect_pools assets).pals
      tiles := (collect_pools assets).tiles
      metas := (collect_pools assets).metas.modify (set_end f v) k }

/-! ## Example inputs -/

/-- A palette with one colour, RGB (200,50,50). -/
def example_palette : Palette := fill_palette [⟨200, 50, 50, 255⟩]

/-- A tile whose pixels all have index 1. -/
def example_tile : Tile := ⟨StdArray.fill 8 255, StdArray.fill 8 0⟩

/-- The asset "a" with 1 palette and 2 tiles. -/
def asset_a : SpriteAsset := ⟨[97], [example_palette], [example_tile, zero_tile]⟩

/-- The asset "b" with 1 palette and 1 tile. -/
def asset_b : SpriteAsset := ⟨[98], [example_palette], [example_tile]⟩

/-- An asset whose name has 2^32 bytes. -/
def long_name_asset : SpriteAsset := ⟨List.replicate 4294967296 0, [], []⟩

/-- An asset whose name has one byte, and nothing else. -/
def short_name_asset : SpriteAsset := ⟨[0], [], []⟩

/-- An asset whose name has 2^32 - 1 bytes. -/
def wrap_name_asset : SpriteAsset := ⟨List.replicate 4294967295 0, [], []⟩

/-! ## Auxiliary definitions for the quantizer statements -/

/-- The colours `{r, g, b, 0xff}` of the pixels with alpha >= 128, in the
order of the row-major scan. -/
def solid_colors (pixels : List u8vec4) : List u8vec4 :=
  (pixels.filter (fun px => 128 ≤ px.a.val)).map solid_of

/-- The distinct values of a list in the order of their first appearance. -/
def first_seen : List u8vec4 → List u8vec4
  | [] => []
  | c :: cs => c :: (first_seen cs).filter (fun d => d ≠ c)

/-- The list `unique_clr` extended by the values first seen in `cs` that it
does not hold yet. -/
def extend_seen (unique_clr cs : List u8vec4) : List u8vec4 :=
  unique_clr ++ (first_seen cs).filter (fun d => d ∉ unique_clr)

/-- The index that `palette_index_of` returns for the pixel at `(X, Y)`
(0 where the pixel or its index is not defined). -/
def index_at (palette : Palette) (pixels : List u8vec4) (size : uvec2) (X Y : Nat) : Nat :=
  match palette_index_of palette (pixels.getD (src_index size X Y) transparent) with
  | .ok idx => idx
  | .error _ => 0

/-- The pixel at `(X, Y)` is inside the vector and has an index. -/
def Classified (palette : Palette) (pixels : List u8vec4) (size : uvec2) (X Y : Nat) : Prop :=
  ∃ px idx, pixels[src_index size X Y]? = some px ∧ palette_index_of palette px = .ok idx

/-- The new `(b0, b1)` of one turn of the loop over `x`, when the turn does
not fail. -/
def row_next (palette : Palette) (pixels : List u8vec4) (size : uvec2)
    (tx img_y : Nat) (acc : Byte × Byte) (x : Nat) : Byte × Byte :=
  (toU8 (acc.1.val ||| (bit_of (index_at palette pixels size (tx * 8 + x) img_y) 1 <<< x)),
    toU8 (acc.2.val ||| (bit_of (index_at palette pixels size (tx * 8 + x) img_y) 2 <<< x)))

/-- The two bytes of row `img_y` of the tile column `tx`, when no turn fails. -/
def row_bytes (palette : Palette) (pixels : List u8vec4) (size : uvec2)
    (tx img_y : Nat) : Byte × Byte :=
  (List.range 8).foldl (row_next palette pixels size tx img_y) ((0 : Byte), (0 : Byte))

/-- The new `tile` of one turn of the loop over `y`, when the turn does not
fail. -/
def tile_next (palette : Palette) (pixels : List u8vec4) (size : uvec2)
    (tx ty : Nat) (tile : Tile) (y : Nat) : Tile :=
  ⟨tile.bit0.set y (row_bytes palette pixels size tx (ty * 8 + y)).1,
    tile.bit1.set y (row_bytes palette pixels size tx (ty * 8 + y)).2⟩

/-- The tile of grid cell `(tx, ty)`, when no turn fails. -/
def tile_of (palette : Palette) (pixels : List u8vec4) (size : uvec2) (tx ty : Nat) : Tile :=
  (List.range 8).foldl (tile_next palette pixels size tx ty) zero_tile

/-- The vector `tiles` after the two outer loops, when no turn fails. -/
def tiles_of (palette : Palette) (pixels : List u8vec4) (size : uvec2) : List Tile :=
  (List.range (size.y.val / 8)).foldl
    (fun tiles ty => (List.range (size.x.val / 8)).foldl
      (fun tiles tx =>
        tiles.set ((ty * (size.x.val / 8) + tx) % 4294967296) (tile_of palette pixels size tx ty))
      tiles)
    (List.replicate ((size.x.val / 8 * (size.y.val / 8)) % 4294967296) zero_tile)

/-- The 2-bit index that a tile holds for its pixel `(x, y)`: bit `x` of
row `y` of `bit0` is its low bit, bit `x` of row `y` of `bit1` its high bit. -/
def decoded_index (tile : Tile) (x y : Nat) : Option Nat :=
  match tile.bit0.get? y, tile.bit1.get? y with
  | some b0, some b1 =>
    some ((if b0.val.testBit x then 1 else 0) + (if b1.val.testBit x then 2 else 0))
  | _, _ => none

/-- The palette and tiles `r` reproduce the image: for every pixel `(X, Y)`
the index decoded from tile `(Y/8)*(width/8) + X/8`, row `Y % 8`, bit `X % 8`
is 0 exactly when the pixel's alpha is below 128, and otherwise the palette
entry at that index is `(r, g, b, 255)` of the pixel. -/
def Lossless (size : uvec2) (pixels : List u8vec4) (r : PackedTiles) : Prop :=
  ∀ X Y, X < size.x.val → Y < size.y.val →
    ∃ px tile idx,
      pixels[Y * size.x.val + X]? = some px
      ∧ r.tiles[Y / 8 * (size.x.val / 8) + X / 8]? = some tile
      ∧ decoded_index tile (X % 8) (Y % 8) = some idx
      ∧ (idx = 0 ↔ px.a.val < 128)
      ∧ (128 ≤ px.a.val → r.palette.get? idx = some ⟨px.r, px.g, px.b, 255⟩)

/-- An image size of 2^19 by 2^19 pixels, that is 2^16 by 2^16 tiles. -/
def huge_size : uvec2 := ⟨524288, 524288⟩

/-- An image of 2^38 transparent pixels. -/
def huge_image : List u8vec4 := List.replicate 274877906944 transparent

/-- An 8x8 image: 63 pixels of RGB (200,50,50) and one transparent pixel. -/
def example_image : List u8vec4 :=
  (List.replicate 64 (⟨200, 50, 50, 255⟩ : u8vec4)).set 10 ⟨9, 9, 9, 3⟩

/-- An 8x8 image of transparent pixels of several colours. -/
def clear_image : List u8vec4 :=
  (List.replicate 64 (⟨1, 2, 3, 0⟩ : u8vec4)).set 5 ⟨7, 7, 7, 127⟩

/-! ## Auxiliary definitions for the statements about reading -/

/-- The three range conditions of lines 178-183 for the descriptor `m`:
begin <= end <= pool size, for the name, palette and tile range. -/
def ranges_valid (names : List Byte) (pals : List Palette) (tiles : List Tile)
    (m : StoredSprite) : Prop :=
  (m.name_begin.val ≤ m.name_end.val ∧ m.name_end.val ≤ names.length)
    ∧ (m.pals_begin.val ≤ m.pals_end.val ∧ m.pals_end.val ≤ pals.length)
    ∧ (m.tiles_begin.val ≤ m.tiles_end.val ∧ m.tiles_end.val ≤ tiles.length)

/-- The two-phase procedure of the specification, phase one for one
descriptor: the first range that is not valid, in the order name, palette,
tile. -/
def first_bad_range (names : List Byte) (pals : List Palette) (tiles : List Tile)
    (m : StoredSprite) : Option ReadError :=
  if ¬ (m.name_begin.val ≤ m.name_end.val ∧ m.name_end.val ≤ names.length) then
    some .bad_name_range
  else if ¬ (m.pals_begin.val ≤ m.pals_end.val ∧ m.pals_end.val ≤ pals.length) then
    some .bad_palette_range
  else if ¬ (m.tiles_begin.val ≤ m.tiles_end.val ∧ m.tiles_end.val ≤ tiles.length) then
    some .bad_tile_range
  else none

/-- The two-phase procedure of the specification, phase one: all descriptors
are checked in order, and the first failure is reported. No asset is built. -/
def validate_all (names : List Byte) (pals : List Palette) (tiles : List Tile) :
    List StoredSprite → Option ReadError
  | [] => none
  | m :: rest =>
    match first_bad_range names pals tiles m with
    | some e => some e
    | none => validate_all names pals tiles rest

/-- The two-phase procedure of the specification: first every descriptor is
validated; only afterwards, when all are valid, every asset is sliced out of
the pools, in descriptor order. -/
def two_phase_read (p : Pools) : Except ReadError (List SpriteAsset) :=
  match validate_all p.names p.pals p.tiles p.metas with
  | some e => .error e
  | none =>
    .ok (p.metas.map (fun m =>
      { name := (p.names.drop m.name_begin.val).take (m.name_end.val - m.name_begin.val)
        palettes := (p.pals.drop m.pals_begin.val).take (m.pals_end.val - m.pals_begin.val)
        tiles :=
          (p.tiles.drop m.tiles_begin.val).take (m.tiles_end.val - m.tiles_begin.val) }))

/-! ## Auxiliary definitions for the statements about the two passes -/

/-- What the function reads of a pixel: nothing but (0,0,0,0) when its alpha
is below 128, and `{r, g, b, 0xff}` otherwise. -/
def canonical (px : u8vec4) : u8vec4 :=
  if px.a.val < 128 then transparent else solid_of px

/-- A pixel with the same class and colour as `px`, but with alpha 128 where
`px` is solid and other channels where it is transparent. -/
def dim_pixel (px : u8vec4) : u8vec4 :=
  if px.a.val < 128 then ⟨1, 2, 3, 100⟩ else ⟨px.r, px.g, px.b, 128⟩

/-! ## The chunk primitive -/

theorem take_bytes_append (l : List Byte) (rest : Stream) :
    take_bytes l.length (l.map Cell.byte ++ rest) = some (l, rest) := by
  induction l with
  | nil => simp [take_bytes]
  | cons b l ih => simp [take_bytes, ih]

theorem byte_layout_lawful : byte_layout.Lawful := by
  refine ⟨by decide, fun x => rfl, fun x rest => ?_⟩
  simp [byte_layout]

theorem get_color_put (c : u8vec4) (rest : List Byte) :
    get_color (put_color c ++ rest) = c := by
  simp [get_color, put_color]

theorem palette_layout_lawful : palette_layout.Lawful := by
  refine ⟨by decide, fun x => ?_, fun x rest => ?_⟩
  · obtain ⟨l, hl⟩ := x
    match l, hl with
    | [a, b, c, d], _ => rfl
  · obtain ⟨l, hl⟩ := x
    match l, hl with
    | [a, b, c, d], _ =>
      apply Subtype.ext
      simp [palette_layout, get_color, put_color]

theorem tile_layout_lawful : tile_layout.Lawful := by
  refine ⟨by decide, fun x => ?_, fun x rest => ?_⟩
  · obtain ⟨⟨l0, h0⟩, ⟨l1, h1⟩⟩ := x
    simp [tile_layout, h0, h1]
  · obtain ⟨⟨l0, h0⟩, ⟨l1, h1⟩⟩ := x
    match l0, h0, l1, h1 with
    | [a0, a1, a2, a3, a4, a5, a6, a7], _, [b0, b1, b2, b3, b4, b5, b6, b7], _ =>
      simp [tile_layout, get_plane]

theorem get_u32_put (v : U32) (rest : List Byte) : get_u32 (put_u32 v ++ rest) = v := by
  obtain ⟨n, hn⟩ := v
  apply Fin.ext
  simp only [get_u32, put_u32, toU32, toU8, List.cons_append, List.nil_append, List.getD_cons_zero,
    List.getD_cons_succ]
  omega

theorem sprite_layout_lawful : sprite_layout.Lawful := by
  refine ⟨by decide, fun x => ?_, fun x rest => ?_⟩
  · simp [sprite_layout, put_u32]
  · have h4 : ∀ (v : U32) (l : List Byte), List.drop 4 (put_u32 v ++ l) = l := by
      intro v l; simp [put_u32]
    have h8 : ∀ (l : List Byte), l.drop 8 = (l.drop 4).drop 4 := by intro l; simp
    have h12 : ∀ (l : List Byte), l.drop 12 = ((l.drop 4).drop 4).drop 4 := by intro l; simp
    have h16 : ∀ (l : List Byte), l.drop 16 = (((l.drop 4).drop 4).drop 4).drop 4 := by
      intro l; simp
    have h20 : ∀ (l : List Byte), l.drop 20 = ((((l.drop 4).drop 4).drop 4).drop 4).drop 4 := by
      intro l; simp
    cases x
    simp only [sprite_layout, List.append_assoc, h8, h12, h16, h20, h4, get_u32_put]

theorem length_flatMap_put {α : Type} (L : Layout α) (hL : L.Lawful) (data : List α) :
    (data.flatMap L.put).length = data.length * L.size := by
  induction data with
  | nil => simp
  | cons x xs ih =>
    simp only [List.flatMap_cons, List.length_append, ih, hL.2.1 x, List.length_cons]
    ring

theorem split_elems_flatMap {α : Type} (L : Layout α) (hL : L.Lawful) (data : List α) :
    split_elems L data.length (data.flatMap L.put) = data := by
  induction data with
  | nil => rfl
  | cons x xs ih =>
    have hd : List.drop L.size (L.put x ++ xs.flatMap L.put) = xs.flatMap L.put := by
      rw [← hL.2.1 x]; exact List.drop_left _ _
    simp only [List.flatMap_cons, List.length_cons, split_elems, hL.2.2, hd, ih]

/-- Reading a chunk that was written gives back the vector and leaves the
rest of the stream. -/
theorem read_chunk_write_chunk {α : Type} (L : Layout α) (hL : L.Lawful) (tag : List Byte)
    (htag : tag.length = 4) (data : List α) (rest : Stream) :
    read_chunk L (write_chunk L tag data ++ rest) tag = .ok (data, rest) := by
  have h1 : take_bytes 4 (write_chunk L tag data ++ rest)
      = some (tag, Cell.length (data.flatMap L.put).length
          :: ((data.flatMap L.put).map Cell.byte ++ rest)) := by
    have := take_bytes_append tag (Cell.length (data.flatMap L.put).length
          :: ((data.flatMap L.put).map Cell.byte ++ rest))
    rw [htag] at this
    simpa [write_chunk] using this
  have hpos := hL.1
  simp only [read_chunk, h1, ne_eq, not_true_eq_false, if_false, take_bytes_append,
    length_flatMap_put L hL, Nat.mul_mod_left, Nat.mul_div_cancel _ hpos]
  rw [← length_flatMap_put L hL, take_bytes_append]
  simp only [length_flatMap_put L hL, Nat.mul_div_cancel _ hpos]
  rw [split_elems_flatMap L hL]

/-! ## Pools and descriptors -/

theorem ok_bind {ε α β : Type} (a : α) (f : α → Except ε β) :
    (Except.ok a >>= f) = f a := rfl

theorem error_bind {ε α β : Type} (e : ε) (f : α → Except ε β) :
    (Except.error e >>= f) = Except.error e := rfl

theorem foldl_write_step (assets : List SpriteAsset) (P : Pools) :
    assets.foldl write_step P
      = { names := P.names ++ assets.flatMap SpriteAsset.name
          pals := P.pals ++ assets.flatMap SpriteAsset.palettes
          tiles := P.tiles ++ assets.flatMap SpriteAsset.tiles
          metas := P.metas
            ++ descriptors P.names.length P.pals.length P.tiles.length assets } := by
  induction assets generalizing P with
  | nil => simp [descriptors]
  | cons a rest ih =>
    simp only [List.foldl_cons, ih, write_step, List.flatMap_cons, List.append_assoc,
      List.length_append, descriptors, List.singleton_append]

theorem collect_pools_eq (assets : List SpriteAsset) :
    collect_pools assets
      = { names := assets.flatMap SpriteAsset.name
          pals := assets.flatMap SpriteAsset.palettes
          tiles := assets.flatMap SpriteAsset.tiles
          metas := descriptors 0 0 0 assets } := by
  simp [collect_pools, foldl_write_step]

/-- Reading what the four `write_chunk` calls wrote, followed by `rest`:
the trailing check decides first, then the loop over the descriptors runs on
the pools that were written. -/
theorem read_write_pools_append (p : Pools) (rest : Stream) :
    read_sprite_assets (write_pools p ++ rest)
      = match rest with
        | _ :: _ => .error .trailing_junk
        | [] => read_pools p := by
  simp only [read_sprite_assets, write_pools, List.append_assoc]
  rw [read_chunk_write_chunk byte_layout byte_layout_lawful tag_name rfl]
  simp only
  rw [read_chunk_write_chunk palette_layout palette_layout_lawful tag_pal0 rfl]
  simp only
  rw [read_chunk_write_chunk tile_layout tile_layout_lawful tag_tile rfl]
  simp only
  rw [read_chunk_write_chunk sprite_layout sprite_layout_lawful tag_sprt rfl]

theorem read_write_pools (p : Pools) : read_sprite_assets (write_pools p) = read_pools p := by
  have h := read_write_pools_append p []
  simpa using h

theorem slice_append_mid {α : Type} (pre mid post : List α) :
    slice (pre ++ (mid ++ post)) pre.length (pre.length + mid.length) = mid := by
  simp [slice]

theorem toU32_val_of_lt (n : Nat) (h : n < 4294967296) : (toU32 n).val = n := by
  simp [toU32, Nat.mod_eq_of_lt h]

/-- The loop of `read_sprite_assets` over the descriptors that
`write_sprite_assets` builds, on the pools it builds, when no pool reaches
2^32 elements. -/
theorem foldlM_read_step_descriptors (assets : List SpriteAsset) :
    ∀ (N0 : List Byte) (P0 : List Palette) (T0 : List Tile) (out : List SpriteAsset),
      (N0 ++ assets.flatMap SpriteAsset.name).length < 4294967296 →
      (P0 ++ assets.flatMap SpriteAsset.palettes).length < 4294967296 →
      (T0 ++ assets.flatMap SpriteAsset.tiles).length < 4294967296 →
      (descriptors N0.length P0.length T0.length assets).foldlM
          (read_step (N0 ++ assets.flatMap SpriteAsset.name)
            (P0 ++ assets.flatMap SpriteAsset.palettes)
            (T0 ++ assets.flatMap SpriteAsset.tiles)) out
        = .ok (out ++ assets) := by
  induction assets with
  | nil => intro N0 P0 T0 out _ _ _; simp [descriptors, pure, Except.pure]
  | cons a rest ih =>
    intro N0 P0 T0 out hn hp ht
    simp only [List.flatMap_cons, List.length_append] at hn hp ht
    have e1 : (toU32 N0.length).val = N0.length := toU32_val_of_lt _ (by omega)
    have e2 : (toU32 (N0.length + a.name.length)).val = N0.length + a.name.length :=
      toU32_val_of_lt _ (by omega)
    have e3 : (toU32 P0.length).val = P0.length := toU32_val_of_lt _ (by omega)
    have e4 : (toU32 (P0.length + a.palettes.length)).val = P0.length + a.palettes.length :=
      toU32_val_of_lt _ (by omega)
    have e5 : (toU32 T0.length).val = T0.length := toU32_val_of_lt _ (by omega)
    have e6 : (toU32 (T0.length + a.tiles.length)).val = T0.length + a.tiles.length :=
      toU32_val_of_lt _ (by omega)
    have step : read_step (N0 ++ (a :: rest).flatMap SpriteAsset.name)
        (P0 ++ (a :: rest).flatMap SpriteAsset.palettes)
        (T0 ++ (a :: rest).flatMap SpriteAsset.tiles) out
        { name_begin := toU32 N0.length, name_end := toU32 (N0.length + a.name.length)
          pals_begin := toU32 P0.length, pals_end := toU32 (P0.length + a.palettes.length)
          tiles_begin := toU32 T0.length, tiles_end := toU32 (T0.length + a.tiles.length) }
        = .ok (out ++ [a]) := by
      simp only [read_step, asset_of, e1, e2, e3, e4, e5, e6, List.flatMap_cons,
        List.length_append, slice_append_mid]
      rw [if_neg (by omega), if_neg (by omega), if_neg (by omega)]
    have h := ih (N0 ++ a.name) (P0 ++ a.palettes) (T0 ++ a.tiles) (out ++ [a])
      (by simp only [List.length_append]; omega) (by simp only [List.length_append]; omega)
      (by simp only [List.length_append]; omega)
    simp only [List.length_append, List.append_assoc] at h
    rw [descriptors, List.foldlM_cons, step, ok_bind]
    simp only [List.flatMap_cons, List.append_assoc, List.singleton_append] at h ⊢
    exact h

/-- C1, as amended: when the concatenated names, palette sequences and tile
sequences of the assets each have fewer than 2^32 elements,
`read_sprite_assets` applied to the stream written by `write_sprite_assets`
succeeds and returns the list that was written. -/
theorem read_write_roundtrip (assets : List SpriteAsset)
    (hn : (assets.flatMap SpriteAsset.name).length < 4294967296)
    (hp : (assets.flatMap SpriteAsset.palettes).length < 4294967296)
    (ht : (assets.flatMap SpriteAsset.tiles).length < 4294967296) :
    read_sprite_assets (write_sprite_assets assets) = .ok assets := by
  rw [write_sprite_assets, read_write_pools, collect_pools_eq, read_pools]
  have h := foldlM_read_step_descriptors assets [] [] [] [] (by simpa using hn)
    (by simpa using hp) (by simpa using ht)
  simpa using h

/-- One asset whose name length is a multiple of 2^32 and which has no
palettes and no tiles is read back with the empty name. -/
theorem read_pools_wrapped_name (nm : List Byte) (h : nm.length % 4294967296 = 0) :
    read_pools (collect_pools [⟨nm, [], []⟩]) = .ok [⟨[], [], []⟩] := by
  rw [collect_pools_eq]
  simp [read_pools, descriptors, read_step, asset_of, slice, toU32, h, ok_bind, pure,
    Except.pure]

/-- C1, the claim as stated fails: for one asset whose name has 2^32 bytes
both ends of the name range are stored as 0, and the asset read back has the
empty name. -/
theorem read_write_long_name :
    read_sprite_assets (write_sprite_assets [long_name_asset])
      ≠ .ok [long_name_asset] := by
  have hlen : long_name_asset.name.length = 4294967296 := List.length_replicate _ _
  have hread : read_sprite_assets (write_sprite_assets [long_name_asset])
      = .ok [⟨[], [], []⟩] := by
    rw [write_sprite_assets, read_write_pools]
    exact read_pools_wrapped_name (List.replicate 4294967296 0)
      (by rw [List.length_replicate])
  rw [hread]
  intro h
  have h1 := Except.ok.inj h
  have h2 := (List.cons.inj h1).1
  have h3 := congrArg (fun a => a.name.length) h2
  simp only [hlen, List.length_nil] at h3
  exact absurd h3 (by decide)

/-- C1, witness: the two assets "a" and "b" are read back as written. -/
theorem read_write_roundtrip_witness :
    ([asset_a, asset_b].flatMap SpriteAsset.name).length < 4294967296
      ∧ ([asset_a, asset_b].flatMap SpriteAsset.palettes).length < 4294967296
      ∧ ([asset_a, asset_b].flatMap SpriteAsset.tiles).length < 4294967296
      ∧ read_sprite_assets (write_sprite_assets [asset_a, asset_b])
          = .ok [asset_a, asset_b] :=
  ⟨by decide, by decide, by decide,
    read_write_roundtrip [asset_a, asset_b] (by decide) (by decide) (by decide)⟩

/-- C6: for every asset list and every byte `b`, `read_sprite_assets` applied
to the output of `write_sprite_assets` followed by the single byte `b` fails
with "Trailing junk at end of file.". -/
theorem read_trailing_byte (assets : List SpriteAsset) (b : Byte) :
    read_sprite_assets (write_sprite_assets assets ++ [Cell.byte b])
      = .error .trailing_junk := by
  rw [write_sprite_assets, read_write_pools_append]

/-! ## Range checks -/

theorem read_step_ok (names : List Byte) (pals : List Palette) (tiles : List Tile)
    (out : List SpriteAsset) (m : StoredSprite)
    (hn : m.name_begin.val ≤ m.name_end.val ∧ m.name_end.val ≤ names.length)
    (hp : m.pals_begin.val ≤ m.pals_end.val ∧ m.pals_end.val ≤ pals.length)
    (ht : m.tiles_begin.val ≤ m.tiles_end.val ∧ m.tiles_end.val ≤ tiles.length) :
    read_step names pals tiles out m = .ok (out ++ [asset_of names pals tiles m]) := by
  simp [read_step, hn, hp, ht]

/-- The loop of `read_sprite_assets` on the descriptors of `write_sprite_assets`
with one end field replaced by a value above the size of its pool. -/
theorem foldlM_read_step_corrupted (f : RangeField) (v : U32) (assets : List SpriteAsset) :
    ∀ (k : Nat) (N0 : List Byte) (P0 : List Palette) (T0 : List Tile)
      (out : List SpriteAsset),
      k < assets.length →
      (N0 ++ assets.flatMap SpriteAsset.name).length < 4294967296 →
      (P0 ++ assets.flatMap SpriteAsset.palettes).length < 4294967296 →
      (T0 ++ assets.flatMap SpriteAsset.tiles).length < 4294967296 →
      pool_size f ⟨N0 ++ assets.flatMap SpriteAsset.name,
        P0 ++ assets.flatMap SpriteAsset.palettes,
        T0 ++ assets.flatMap SpriteAsset.tiles, []⟩ < v.val →
      ((descriptors N0.length P0.length T0.length assets).modify (set_end f v) k).foldlM
          (read_step (N0 ++ assets.flatMap SpriteAsset.name)
            (P0 ++ assets.flatMap SpriteAsset.palettes)
            (T0 ++ assets.flatMap SpriteAsset.tiles)) out
        = .error (range_error f) := by
  induction assets with
  | nil => intro k N0 P0 T0 out hk; simp at hk
  | cons a rest ih =>
    intro k N0 P0 T0 out hk hn hp ht hv
    simp only [List.flatMap_cons, List.length_append] at hn hp ht
    have e1 : (toU32 N0.length).val = N0.length := toU32_val_of_lt _ (by omega)
    have e2 : (toU32 (N0.length + a.name.length)).val = N0.length + a.name.length :=
      toU32_val_of_lt _ (by omega)
    have e3 : (toU32 P0.length).val = P0.length := toU32_val_of_lt _ (by omega)
    have e4 : (toU32 (P0.length + a.palettes.length)).val = P0.length + a.palettes.length :=
      toU32_val_of_lt _ (by omega)
    have e5 : (toU32 T0.length).val = T0.length := toU32_val_of_lt _ (by omega)
    have e6 : (toU32 (T0.length + a.tiles.length)).val = T0.length + a.tiles.length :=
      toU32_val_of_lt _ (by omega)
    cases k with
    | zero =>
      rw [descriptors, List.modify_zero_cons, List.foldlM_cons]
      have step : read_step (N0 ++ (a :: rest).flatMap SpriteAsset.name)
          (P0 ++ (a :: rest).flatMap SpriteAsset.palettes)
          (T0 ++ (a :: rest).flatMap SpriteAsset.tiles) out
          (set_end f v
            { name_begin := toU32 N0.length, name_end := toU32 (N0.length + a.name.length)
              pals_begin := toU32 P0.length, pals_end := toU32 (P0.length + a.palettes.length)
              tiles_begin := toU32 T0.length
              tiles_end := toU32 (T0.length + a.tiles.length) })
          = .error (range_error f) := by
        cases f
        · simp only [pool_size, List.flatMap_cons, List.length_append] at hv
          simp only [read_step, set_end, range_error, e1, List.flatMap_cons,
            List.length_append]
          rw [if_pos (by omega)]
        · simp only [pool_size, List.flatMap_cons, List.length_append] at hv
          simp only [read_step, set_end, range_error, e1, e2, e3, List.flatMap_cons,
            List.length_append]
          rw [if_neg (by omega), if_pos (by omega)]
        · simp only [pool_size, List.flatMap_cons, List.length_append] at hv
          simp only [read_step, set_end, range_error, e1, e2, e3, e4, e5, List.flatMap_cons,
            List.length_append]
          rw [if_neg (by omega), if_neg (by omega), if_pos (by omega)]
      rw [step, error_bind]
    | succ k =>
      rw [descriptors, List.modify_succ_cons, List.foldlM_cons]
      have step : read_step (N0 ++ (a :: rest).flatMap SpriteAsset.name)
          (P0 ++ (a :: rest).flatMap SpriteAsset.palettes)
          (T0 ++ (a :: rest).flatMap SpriteAsset.tiles) out
          { name_begin := toU32 N0.length, name_end := toU32 (N0.length + a.name.length)
            pals_begin := toU32 P0.length, pals_end := toU32 (P0.length + a.palettes.length)
            tiles_begin := toU32 T0.length, tiles_end := toU32 (T0.length + a.tiles.length) }
          = .ok (out ++ [a]) := by
        simp only [read_step, asset_of, e1, e2, e3, e4, e5, e6, List.flatMap_cons,
          List.length_append, slice_append_mid]
        rw [if_neg (by omega), if_neg (by omega), if_neg (by omega)]
      have h := ih k (N0 ++ a.name) (P0 ++ a.palettes) (T0 ++ a.tiles) (out ++ [a])
        (by simpa using hk)
        (by simp only [List.length_append]; omega) (by simp only [List.length_append]; omega)
        (by simp only [List.length_append]; omega)
        (by simpa only [List.flatMap_cons, List.append_assoc] using hv)
      simp only [List.length_append, List.append_assoc] at h
      rw [step, ok_bind]
      simp only [List.flatMap_cons] at h ⊢
      exact h

/-- C7, as amended: for a container written by `write_sprite_assets` from an
asset list whose three pools each have fewer than 2^32 elements, and for each
of the three ranges: with the end field of that range in any one descriptor
replaced by a value above the size of its pool, `read_sprite_assets` fails
with the range error of that pool. -/
theorem read_corrupted_end (assets : List SpriteAsset) (k : Nat) (f : RangeField) (v : U32)
    (hn : (assets.flatMap SpriteAsset.name).length < 4294967296)
    (hp : (assets.flatMap SpriteAsset.palettes).length < 4294967296)
    (ht : (assets.flatMap SpriteAsset.tiles).length < 4294967296)
    (hk : k < assets.length)
    (hv : pool_size f (collect_pools assets) < v.val) :
    read_sprite_assets (corrupted_container assets k f v) = .error (range_error f) := by
  rw [corrupted_container, read_write_pools, read_pools]
  rw [collect_pools_eq] at hv ⊢
  have h := foldlM_read_step_corrupted f v assets k [] [] [] [] hk (by simpa using hn)
    (by simpa using hp) (by simpa using ht)
    (by cases f <;> simpa [pool_size] using hv)
  simpa using h

/-- C7, witness: the tile end of the descriptor of "b" replaced by 9, with 3
tiles in the pool. -/
theorem read_corrupted_end_witness :
    1 < [asset_a, asset_b].length
      ∧ pool_size RangeField.tiles (collect_pools [asset_a, asset_b]) < (9 : U32).val
      ∧ read_sprite_assets (corrupted_container [asset_a, asset_b] 1 RangeField.tiles 9)
          = .error .bad_tile_range :=
  ⟨by decide, by decide,
    read_corrupted_end [asset_a, asset_b] 1 RangeField.tiles 9 (by decide) (by decide)
      (by decide) (by decide) (by decide)⟩

/-- Two assets without palettes and tiles, the first with a one-byte name and
the names together a multiple of 2^32 bytes long: the name range of the
second descriptor is stored as [1, 0), and the loop stops at its name check
whatever its tile end field holds. -/
theorem read_pools_wrapped_second (nm1 nm2 : List Byte) (v : U32) (h1 : nm1.length = 1)
    (h2 : (1 + nm2.length) % 4294967296 = 0) :
    read_pools
        { names := (collect_pools [⟨nm1, [], []⟩, ⟨nm2, [], []⟩]).names
          pals := (collect_pools [⟨nm1, [], []⟩, ⟨nm2, [], []⟩]).pals
          tiles := (collect_pools [⟨nm1, [], []⟩, ⟨nm2, [], []⟩]).tiles
          metas := (collect_pools [⟨nm1, [], []⟩, ⟨nm2, [], []⟩]).metas.modify
            (set_end RangeField.tiles v) 1 }
      = .error .bad_name_range := by
  rw [collect_pools_eq]
  simp [read_pools, descriptors, read_step, set_end, toU32, h1, h2, ok_bind, error_bind]

/-- C7, the claim as stated fails: for the two assets with names of 1 and
2^32 - 1 bytes, replacing the tile end field of the second descriptor by 5,
above the size 0 of the tile pool, makes `read_sprite_assets` fail with
"Bad name range.", not with "Bad tile range.". -/
theorem read_corrupted_end_wrapped :
    1 < [short_name_asset, wrap_name_asset].length
      ∧ pool_size RangeField.tiles (collect_pools [short_name_asset, wrap_name_asset])
          < (5 : U32).val
      ∧ read_sprite_assets
          (corrupted_container [short_name_asset, wrap_name_asset] 1 RangeField.tiles 5)
          ≠ .error (range_error RangeField.tiles) := by
  refine ⟨by decide, ?_, ?_⟩
  · have t1 : short_name_asset.tiles = [] := rfl
    have t2 : wrap_name_asset.tiles = [] := rfl
    rw [collect_pools_eq]
    simp only [pool_size, List.flatMap_cons, List.flatMap_nil, t1, t2, List.append_nil,
      List.length_nil]
    decide
  · rw [corrupted_container, read_write_pools]
    have h := read_pools_wrapped_second [0] (List.replicate 4294967295 0) 5 rfl
      (by rw [List.length_replicate])
    rw [show short_name_asset = ⟨[0], [], []⟩ from rfl,
      show wrap_name_asset = ⟨List.replicate 4294967295 0, [], []⟩ from rfl, h]
    simp [range_error]

/-! ## Descriptors -/

theorem descriptors_length (assets : List SpriteAsset) :
    ∀ n p t, (descriptors n p t assets).length = assets.length := by
  induction assets with
  | nil => intro n p t; rfl
  | cons a rest ih => intro n p t; simp [descriptors, ih]

/-- The descriptor at position `i`: its fields are the sizes of the pools
before and after asset `i`, converted to `uint32_t`. -/
theorem descriptors_getElem? (assets : List SpriteAsset) :
    ∀ (n p t i : Nat), (descriptors n p t assets)[i]?
      = (assets[i]?).map (fun a =>
          { name_begin := toU32 (n + ((assets.take i).flatMap SpriteAsset.name).length)
            name_end := toU32 (n + ((assets.take i).flatMap SpriteAsset.name).length
              + a.name.length)
            pals_begin := toU32 (p + ((assets.take i).flatMap SpriteAsset.palettes).length)
            pals_end := toU32 (p + ((assets.take i).flatMap SpriteAsset.palettes).length
              + a.palettes.length)
            tiles_begin := toU32 (t + ((assets.take i).flatMap SpriteAsset.tiles).length)
            tiles_end := toU32 (t + ((assets.take i).flatMap SpriteAsset.tiles).length
              + a.tiles.length) }) := by
  induction assets with
  | nil => intro n p t i; simp [descriptors]
  | cons a rest ih =>
    intro n p t i
    cases i with
    | zero => simp [descriptors]
    | succ i =>
      simp only [descriptors, List.getElem?_cons_succ, ih, List.take_succ_cons,
        List.flatMap_cons, List.length_append, Nat.add_assoc]

theorem length_take_flatMap_le {α : Type} (assets : List SpriteAsset)
    (g : SpriteAsset → List α) (i : Nat) (a : SpriteAsset) (h : assets[i]? = some a) :
    ((assets.take i).flatMap g).length + (g a).length ≤ (assets.flatMap g).length := by
  have h1 : assets.take (i + 1) = assets.take i ++ [a] := by
    rw [List.take_succ, h]; rfl
  have h2 : assets = assets.take (i + 1) ++ assets.drop (i + 1) :=
    (List.take_append_drop _ _).symm
  have h3 : (assets.flatMap g).length
      = ((assets.take (i + 1)).flatMap g).length
        + ((assets.drop (i + 1)).flatMap g).length := by
    conv_lhs => rw [h2]
    rw [List.flatMap_append, List.length_append]
  rw [h3, h1, List.flatMap_append, List.length_append]
  simp

/-- C8, as amended: the descriptors built by `write_sprite_assets` are one per
asset; the three begin fields of the first are 0; each begin field equals the
end field of the previous descriptor for the same pool; and, for a pool that
has fewer than 2^32 elements in all, begin is at most end and end - begin is
the length of that asset's name, palette sequence or tile sequence. The
assets "a" (1 palette, 2 tiles) and "b" (1 palette, 1 tile) give
a: names [0,1), pals [0,1), tiles [0,2) and b: names [1,2), pals [1,2),
tiles [2,3). -/
theorem descriptors_contiguous (assets : List SpriteAsset) :
    (collect_pools assets).metas.length = assets.length
    ∧ (∀ m : StoredSprite, (collect_pools assets).metas[0]? = some m →
        m.name_begin.val = 0 ∧ m.pals_begin.val = 0 ∧ m.tiles_begin.val = 0)
    ∧ (∀ (i : Nat) (m m' : StoredSprite), (collect_pools assets).metas[i]? = some m →
        (collect_pools assets).metas[i + 1]? = some m' →
        m'.name_begin = m.name_end ∧ m'.pals_begin = m.pals_end
          ∧ m'.tiles_begin = m.tiles_end)
    ∧ (∀ (i : Nat) (m : StoredSprite) (a : SpriteAsset),
        (collect_pools assets).metas[i]? = some m → assets[i]? = some a →
        ((assets.flatMap SpriteAsset.name).length < 4294967296 →
          m.name_begin.val ≤ m.name_end.val
            ∧ m.name_end.val - m.name_begin.val = a.name.length)
        ∧ ((assets.flatMap SpriteAsset.palettes).length < 4294967296 →
          m.pals_begin.val ≤ m.pals_end.val
            ∧ m.pals_end.val - m.pals_begin.val = a.palettes.length)
        ∧ ((assets.flatMap SpriteAsset.tiles).length < 4294967296 →
          m.tiles_begin.val ≤ m.tiles_end.val
            ∧ m.tiles_end.val - m.tiles_begin.val = a.tiles.length))
    ∧ (collect_pools [asset_a, asset_b]).metas
        = [⟨0, 1, 0, 1, 0, 2⟩, ⟨1, 2, 1, 2, 2, 3⟩] := by
  refine ⟨?_, ?_, ?_, ?_, by decide⟩
  · rw [collect_pools_eq]; exact descriptors_length assets 0 0 0
  · intro m hm
    rw [collect_pools_eq] at hm
    simp only [descriptors_getElem?, Option.map_eq_some'] at hm
    obtain ⟨a, _, rfl⟩ := hm
    simp [toU32]
  · intro i m m' hm hm'
    rw [collect_pools_eq] at hm hm'
    simp only [descriptors_getElem?, Option.map_eq_some'] at hm hm'
    obtain ⟨a, ha, rfl⟩ := hm
    obtain ⟨a', _, rfl⟩ := hm'
    have h1 : assets.take (i + 1) = assets.take i ++ [a] := by
      rw [List.take_succ, ha]; rfl
    simp only [h1, List.flatMap_append, List.flatMap_cons, List.flatMap_nil,
      List.append_nil, List.length_append, Nat.add_assoc, and_self]
  · intro i m a hm ha
    rw [collect_pools_eq] at hm
    simp only [descriptors_getElem?, Option.map_eq_some'] at hm
    obtain ⟨a', ha', rfl⟩ := hm
    rw [ha] at ha'
    cases Option.some.inj ha'
    have hN := length_take_flatMap_le assets SpriteAsset.name i a ha
    have hP := length_take_flatMap_le assets SpriteAsset.palettes i a ha
    have hT := length_take_flatMap_le assets SpriteAsset.tiles i a ha
    refine ⟨fun h => ?_, fun h => ?_, fun h => ?_⟩
    · simp only [Nat.zero_add]
      rw [toU32_val_of_lt _ (by omega), toU32_val_of_lt _ (by omega)]
      omega
    · simp only [Nat.zero_add]
      rw [toU32_val_of_lt _ (by omega), toU32_val_of_lt _ (by omega)]
      omega
    · simp only [Nat.zero_add]
      rw [toU32_val_of_lt _ (by omega), toU32_val_of_lt _ (by omega)]
      omega

/-- C8, witness: the descriptor of "b" in the list "a", "b". -/
theorem descriptors_contiguous_witness :
    (collect_pools [asset_a, asset_b]).metas[1]? = some ⟨1, 2, 1, 2, 2, 3⟩
      ∧ [asset_a, asset_b][1]? = some asset_b
      ∧ ([asset_a, asset_b].flatMap SpriteAsset.tiles).length < 4294967296
      ∧ (2 : U32).val ≤ (3 : U32).val ∧ (3 : U32).val - (2 : U32).val = asset_b.tiles.length :=
  ⟨by decide, by decide, by decide,
    ((descriptors_contiguous [asset_a, asset_b]).2.2.2.1 1 ⟨1, 2, 1, 2, 2, 3⟩ asset_b
      (by decide) (by decide)).2.2 (by decide)⟩

/-- The descriptor written for the first asset of a list. -/
theorem first_descriptor (a : SpriteAsset) :
    (collect_pools [a]).metas[0]?
      = some ⟨toU32 0, toU32 (0 + a.name.length), toU32 0, toU32 (0 + a.palettes.length),
          toU32 0, toU32 (0 + a.tiles.length)⟩ := by
  rw [collect_pools_eq]; rfl

/-- The descriptor written for a single asset whose name has 2^32 bytes and
which has no palettes and no tiles. -/
theorem first_descriptor_wrapped (a : SpriteAsset) (h : a.name.length = 4294967296)
    (hp : a.palettes = []) (ht : a.tiles = []) :
    (collect_pools [a]).metas[0]? = some ⟨0, 0, 0, 0, 0, 0⟩ := by
  rw [first_descriptor, h, hp, ht]
  rfl

/-- C8, the claim as stated fails: for one asset whose name has 2^32 bytes
the name range is stored as [0, 0), and end - begin is 0, not the length of
the name. -/
theorem descriptors_long_name :
    ∃ m, (collect_pools [long_name_asset]).metas[0]? = some m
      ∧ [long_name_asset][0]? = some long_name_asset
      ∧ m.name_end.val - m.name_begin.val ≠ long_name_asset.name.length := by
  have hlen : long_name_asset.name.length = 4294967296 := List.length_replicate _ _
  refine ⟨⟨0, 0, 0, 0, 0, 0⟩, first_descriptor_wrapped long_name_asset hlen rfl rfl, rfl, ?_⟩
  rw [hlen]
  decide

/-! ## Reading -/

theorem foldlM_read_step_ok (names : List Byte) (pals : List Palette) (tiles : List Tile)
    (metas : List StoredSprite) :
    ∀ (out res : List SpriteAsset),
      metas.foldlM (read_step names pals tiles) out = .ok res →
      res = out ++ metas.map (asset_of names pals tiles)
        ∧ ∀ m ∈ metas,
            (m.name_begin.val ≤ m.name_end.val ∧ m.name_end.val ≤ names.length)
            ∧ (m.pals_begin.val ≤ m.pals_end.val ∧ m.pals_end.val ≤ pals.length)
            ∧ (m.tiles_begin.val ≤ m.tiles_end.val ∧ m.tiles_end.val ≤ tiles.length) := by
  induction metas with
  | nil =>
    intro out res h
    simp only [List.foldlM_nil, pure, Except.pure] at h
    cases h
    simp
  | cons m ms ih =>
    intro out res h
    rw [List.foldlM_cons] at h
    by_cases hn : m.name_begin.val ≤ m.name_end.val ∧ m.name_end.val ≤ names.length
    · by_cases hp : m.pals_begin.val ≤ m.pals_end.val ∧ m.pals_end.val ≤ pals.length
      · by_cases ht : m.tiles_begin.val ≤ m.tiles_end.val ∧ m.tiles_end.val ≤ tiles.length
        · rw [read_step_ok names pals tiles out m hn hp ht, ok_bind] at h
          obtain ⟨h1, h2⟩ := ih _ _ h
          refine ⟨by simp [h1], ?_⟩
          intro m' hm'
          rcases List.mem_cons.1 hm' with rfl | hm'
          · exact ⟨hn, hp, ht⟩
          · exact h2 m' hm'
        · simp only [read_step, hn, hp, ht, not_true_eq_false, not_false_eq_true, if_false,
            if_true, error_bind] at h
          cases h
      · simp only [read_step, hn, hp, not_true_eq_false, not_false_eq_true, if_false,
          if_true, error_bind] at h
        cases h
    · simp only [read_step, hn, not_false_eq_true, if_true, error_bind] at h
      cases h

/-- C9: whenever `read_sprite_assets` succeeds on a stream, the four chunks
were read in order and nothing follows them, the result has one asset per
descriptor, and asset `i` holds the elements [begin, end) of the name pool,
of the palette pool and of the tile pool for descriptor `i`, in pool order. -/
theorem read_gives_slices (src : Stream) (out : List SpriteAsset)
    (h : read_sprite_assets src = .ok out) :
    ∃ names s1 pals s2 tiles s3 metas,
      read_chunk byte_layout src tag_name = .ok (names, s1)
      ∧ read_chunk palette_layout s1 tag_pal0 = .ok (pals, s2)
      ∧ read_chunk tile_layout s2 tag_tile = .ok (tiles, s3)
      ∧ read_chunk sprite_layout s3 tag_sprt = .ok (metas, [])
      ∧ out.length = metas.length
      ∧ ∀ (i : Nat) (m : StoredSprite), metas[i]? = some m →
          out[i]? = some (SpriteAsset.mk
            ((names.drop m.name_begin.val).take (m.name_end.val - m.name_begin.val))
            ((pals.drop m.pals_begin.val).take (m.pals_end.val - m.pals_begin.val))
            ((tiles.drop m.tiles_begin.val).take (m.tiles_end.val - m.tiles_begin.val))) := by
  cases h1 : read_chunk byte_layout src tag_name with
  | error e => simp [read_sprite_assets, h1] at h
  | ok r1 =>
    obtain ⟨names, s1⟩ := r1
    cases h2 : read_chunk palette_layout s1 tag_pal0 with
    | error e => simp [read_sprite_assets, h1, h2] at h
    | ok r2 =>
      obtain ⟨pals, s2⟩ := r2
      cases h3 : read_chunk tile_layout s2 tag_tile with
      | error e => simp [read_sprite_assets, h1, h2, h3] at h
      | ok r3 =>
        obtain ⟨tiles, s3⟩ := r3
        cases h4 : read_chunk sprite_layout s3 tag_sprt with
        | error e => simp [read_sprite_assets, h1, h2, h3, h4] at h
        | ok r4 =>
          obtain ⟨metas, s4⟩ := r4
          cases s4 with
          | cons c s5 => simp [read_sprite_assets, h1, h2, h3, h4] at h
          | nil =>
            simp only [read_sprite_assets, h1, h2, h3, h4, read_pools] at h
            obtain ⟨hres, _⟩ := foldlM_read_step_ok names pals tiles metas [] out h
            refine ⟨names, s1, pals, s2, tiles, s3, metas, rfl, h2, h3, h4, ?_, ?_⟩
            · simp [hres]
            · intro i m hm
              simp [hres, hm, asset_of, slice]

/-- C9, witness: the stream written for the assets "a" and "b". -/
theorem read_gives_slices_witness :
    read_sprite_assets (write_sprite_assets [asset_a, asset_b]) = .ok [asset_a, asset_b]
      ∧ ∃ names s1 pals s2 tiles s3 metas,
        read_chunk byte_layout (write_sprite_assets [asset_a, asset_b]) tag_name
            = .ok (names, s1)
        ∧ read_chunk palette_layout s1 tag_pal0 = .ok (pals, s2)
        ∧ read_chunk tile_layout s2 tag_tile = .ok (tiles, s3)
        ∧ read_chunk sprite_layout s3 tag_sprt = .ok (metas, [])
        ∧ [asset_a, asset_b].length = metas.length
        ∧ ∀ (i : Nat) (m : StoredSprite), metas[i]? = some m →
            [asset_a, asset_b][i]? = some (SpriteAsset.mk
              ((names.drop m.name_begin.val).take (m.name_end.val - m.name_begin.val))
              ((pals.drop m.pals_begin.val).take (m.pals_end.val - m.pals_begin.val))
              ((tiles.drop m.tiles_begin.val).take
                (m.tiles_end.val - m.tiles_begin.val))) :=
  ⟨rfl, read_gives_slices (write_sprite_assets [asset_a, asset_b]) [asset_a, asset_b] rfl⟩

/-! ## First pass: the distinct colours -/

theorem mem_first_seen (l : List u8vec4) (c : u8vec4) : c ∈ first_seen l ↔ c ∈ l := by
  induction l with
  | nil => simp [first_seen]
  | cons d l ih =>
    simp only [first_seen, List.mem_cons, List.mem_filter, ih, decide_eq_true_eq]
    by_cases h : c = d <;> simp [h]

theorem nodup_first_seen (l : List u8vec4) : (first_seen l).Nodup := by
  induction l with
  | nil => simp [first_seen]
  | cons d l ih =>
    simp only [first_seen, List.nodup_cons, List.mem_filter, decide_eq_true_eq]
    exact ⟨fun h => h.2 rfl, ih.filter _⟩

/-- The number of distinct values is the length of `first_seen`. -/
theorem length_first_seen (l : List u8vec4) : (first_seen l).length = l.toFinset.card := by
  rw [← List.toFinset_card_of_nodup (nodup_first_seen l)]
  congr 1
  ext c
  simp [mem_first_seen]

theorem seen_in_iff (u : List u8vec4) (c : u8vec4) : seen_in u c = true ↔ c ∈ u := by
  simp [seen_in, List.any_eq_true]

theorem extend_seen_nil (u : List u8vec4) : extend_seen u [] = u := by
  simp [extend_seen, first_seen]

theorem extend_seen_of_mem (u cs : List u8vec4) (c : u8vec4) (h : c ∈ u) :
    extend_seen u (c :: cs) = extend_seen u cs := by
  have hc : decide (c ∉ u) = false := by simp [h]
  simp only [extend_seen, first_seen, List.filter_cons, hc, List.filter_filter]
  congr 1
  apply List.filter_congr
  intro d _
  by_cases hd : d = c
  · subst hd; simp [h]
  · simp [hd]

theorem extend_seen_of_not_mem (u cs : List u8vec4) (c : u8vec4) (h : c ∉ u) :
    extend_seen u (c :: cs) = extend_seen (u ++ [c]) cs := by
  have hc : decide (c ∉ u) = true := by simp [h]
  simp only [extend_seen, first_seen, List.filter_cons, hc, List.filter_filter, if_true,
    List.append_assoc, List.singleton_append]
  congr 2
  apply List.filter_congr
  intro d _
  by_cases hd : d = c
  · subst hd; simp
  · simp [hd]

theorem length_le_extend_seen (u cs : List u8vec4) : u.length ≤ (extend_seen u cs).length := by
  simp [extend_seen]

theorem solid_colors_cons_of_lt (px : u8vec4) (rest : List u8vec4) (h : px.a.val < 128) :
    solid_colors (px :: rest) = solid_colors rest := by
  have : decide (128 ≤ px.a.val) = false := by simp; omega
  simp [solid_colors, List.filter_cons, this]

theorem solid_colors_cons_of_ge (px : u8vec4) (rest : List u8vec4) (h : ¬ px.a.val < 128) :
    solid_colors (px :: rest) = solid_of px :: solid_colors rest := by
  have : decide (128 ≤ px.a.val) = true := by simp; omega
  simp [solid_colors, List.filter_cons, this]

/-- The first pass: it returns `unique_clr` extended by the colours first
seen among the remaining pixels, or throws when these are more than 3. -/
theorem scan_pixels_eq (pixels : List u8vec4) :
    ∀ (u : List u8vec4), u.length ≤ 3 →
      scan_pixels pixels u
        = if (extend_seen u (solid_colors pixels)).length ≤ 3
          then .ok (extend_seen u (solid_colors pixels))
          else .error .too_many_colors := by
  induction pixels with
  | nil =>
    intro u hu
    simp [scan_pixels, solid_colors, extend_seen_nil, hu]
  | cons px rest ih =>
    intro u hu
    by_cases ha : px.a.val < 128
    · simp only [scan_pixels, ha, if_true, solid_colors_cons_of_lt px rest ha]
      exact ih u hu
    · simp only [scan_pixels, ha, if_false, solid_colors_cons_of_ge px rest ha]
      by_cases hs : solid_of px ∈ u
      · simp only [(seen_in_iff u (solid_of px)).2 hs, if_true,
          extend_seen_of_mem u _ _ hs]
        exact ih u hu
      · have hs' : seen_in u (solid_of px) = false := by
          cases h : seen_in u (solid_of px) with
          | false => rfl
          | true => exact absurd ((seen_in_iff u _).1 h) hs
        simp only [hs', Bool.false_eq_true, if_false, extend_seen_of_not_mem u _ _ hs]
        by_cases hl : (u ++ [solid_of px]).length > 3
        · have := length_le_extend_seen (u ++ [solid_of px]) (solid_colors rest)
          rw [if_pos hl, if_neg (by omega)]
        · rw [if_neg hl]
          exact ih _ (by omega)

theorem scan_pixels_nil_acc (pixels : List u8vec4) :
    scan_pixels pixels []
      = if (first_seen (solid_colors pixels)).length ≤ 3
        then .ok (first_seen (solid_colors pixels))
        else .error .too_many_colors := by
  have h := scan_pixels_eq pixels [] (by simp)
  simpa [extend_seen] using h

/-! ## The palette -/

theorem fill_palette_val (u : List u8vec4) (hu : u.length ≤ 3) :
    (fill_palette u).val
      = transparent :: (u ++ List.replicate (3 - u.length) transparent) := by
  match u, hu with
  | [], _ => rfl
  | [a], _ => rfl
  | [a, b], _ => rfl
  | [a, b, c], _ => rfl
  | _ :: _ :: _ :: _ :: _, h => simp at h

theorem foldl_set_zero (stores : List (Nat × u8vec4)) :
    ∀ (p : Palette), p.get? 0 = some transparent →
      (∀ s ∈ stores, s.1 = 0 → s.2 = transparent) →
      (stores.foldl (fun p s => p.set s.1 s.2) p).get? 0 = some transparent := by
  induction stores with
  | nil => intro p hp _; exact hp
  | cons s rest ih =>
    intro p hp hs
    rw [List.foldl_cons]
    apply ih
    · obtain ⟨l, hl⟩ := p
      simp only [StdArray.get?, StdArray.set] at hp ⊢
      by_cases h0 : s.1 = 0
      · have := hs s (List.mem_cons_self _ _) h0
        rw [h0, this]
        match l, hl with
        | [a, b, c, d], _ => rfl
      · rw [List.getElem?_set_ne h0]
        exact hp
    · intro s' hs'
      exact hs s' (List.mem_cons_of_mem _ hs')

/-- Every store that the function makes at index 0 stores the transparent
colour: the two loops store at `1 + i`. -/
theorem palette_stores_zero (u : List u8vec4) :
    ∀ s ∈ palette_stores u, s.1 = 0 → s.2 = transparent := by
  intro s hs h0
  simp only [palette_stores, List.mem_cons, List.mem_append, List.mem_map] at hs
  rcases hs with rfl | ⟨ic, _, rfl⟩ | ⟨i, _, rfl⟩
  · rfl
  · simp at h0
  · rfl

theorem build_ok_palette (size : uvec2) (pixels : List u8vec4) (r : PackedTiles)
    (h : build_palette_and_tiles size pixels = .ok r) :
    (first_seen (solid_colors pixels)).length ≤ 3
      ∧ r.palette = fill_palette (first_seen (solid_colors pixels)) := by
  unfold build_palette_and_tiles at h
  rw [scan_pixels_nil_acc] at h
  by_cases hl : (first_seen (solid_colors pixels)).length ≤ 3
  · rw [if_pos hl] at h
    simp only at h
    cases hb : build_tiles (fill_palette (first_seen (solid_colors pixels))) pixels size with
    | error e => rw [hb] at h; cases h
    | ok tiles =>
      rw [hb] at h
      cases h
      exact ⟨hl, rfl⟩
  · rw [if_neg hl] at h
    cases h

/-- C3: when the pixels with alpha >= 128 have more than 3 distinct colours
`{r, g, b, 0xff}`, `build_palette_and_tiles` fails with "Image has more than
3 unique colors." and so returns no palette and no tiles. -/
theorem build_too_many_colors (size : uvec2) (pixels : List u8vec4)
    (h : 3 < (solid_colors pixels).toFinset.card) :
    build_palette_and_tiles size pixels = .error .too_many_colors := by
  unfold build_palette_and_tiles
  rw [scan_pixels_nil_acc, length_first_seen, if_neg (by omega)]

/-- C5: on every input on which `build_palette_and_tiles` returns a result,
slot 0 of the returned palette is (0,0,0,0); and every store the function
makes at index 0 of the palette stores (0,0,0,0). -/
theorem build_slot_zero (size : uvec2) (pixels : List u8vec4) (r : PackedTiles)
    (h : build_palette_and_tiles size pixels = .ok r) :
    r.palette.get? 0 = some ⟨0, 0, 0, 0⟩
      ∧ ∀ (unique_clr : List u8vec4), ∀ s ∈ palette_stores unique_clr,
          s.1 = 0 → s.2 = ⟨0, 0, 0, 0⟩ := by
  refine ⟨?_, palette_stores_zero⟩
  rw [(build_ok_palette size pixels r h).2]
  exact foldl_set_zero _ _ rfl (palette_stores_zero _)

/-! ## Second pass: the loops -/

theorem foldlM_ok {ε σ β : Type} (f : σ → β → Except ε σ) (g : σ → β → σ) (l : List β) :
    ∀ (s : σ), (∀ b ∈ l, ∀ s, f s b = .ok (g s b)) → l.foldlM f s = .ok (l.foldl g s) := by
  induction l with
  | nil => intro s _; rfl
  | cons b rest ih =>
    intro s h
    rw [List.foldlM_cons, h b (List.mem_cons_self _ _), ok_bind, List.foldl_cons]
    exact ih _ (fun b' hb' => h b' (List.mem_cons_of_mem _ hb'))

theorem row_step_eq (palette : Palette) (pixels : List u8vec4) (size : uvec2)
    (tx img_y x : Nat) (acc : Byte × Byte) (hx : tx * 8 + x < 4294967296)
    (h : Classified palette pixels size (tx * 8 + x) img_y) :
    row_step palette pixels size tx img_y acc x
      = .ok (row_next palette pixels size tx img_y acc x) := by
  obtain ⟨px, idx, hpx, hidx⟩ := h
  have hd : pixels.getD (src_index size (tx * 8 + x) img_y) transparent = px := by
    rw [List.getD_eq_getElem?_getD, hpx]; rfl
  simp only [row_step, row_next, index_at, Nat.mod_eq_of_lt hx, hpx, hidx, hd]

theorem tile_step_eq (palette : Palette) (pixels : List u8vec4) (size : uvec2)
    (tx ty y : Nat) (tile : Tile) (hx : tx * 8 + 8 ≤ 4294967296)
    (hy : ty * 8 + y < 4294967296)
    (h : ∀ x, x < 8 → Classified palette pixels size (tx * 8 + x) (ty * 8 + y)) :
    tile_step palette pixels size tx ty tile y
      = .ok (tile_next palette pixels size tx ty tile y) := by
  have hrow : (List.range 8).foldlM (row_step palette pixels size tx (ty * 8 + y))
      ((0 : Byte), (0 : Byte)) = .ok (row_bytes palette pixels size tx (ty * 8 + y)) := by
    apply foldlM_ok
    intro x hx8 acc
    rw [List.mem_range] at hx8
    exact row_step_eq palette pixels size tx (ty * 8 + y) x acc (by omega) (h x hx8)
  simp only [tile_step, tile_next, Nat.mod_eq_of_lt hy, hrow]

theorem build_tile_eq (palette : Palette) (pixels : List u8vec4) (size : uvec2)
    (tx ty : Nat) (hx : tx * 8 + 8 ≤ 4294967296) (hy : ty * 8 + 8 ≤ 4294967296)
    (h : ∀ x y, x < 8 → y < 8 → Classified palette pixels size (tx * 8 + x) (ty * 8 + y)) :
    build_tile palette pixels size tx ty = .ok (tile_of palette pixels size tx ty) := by
  apply foldlM_ok
  intro y hy8 tile
  rw [List.mem_range] at hy8
  exact tile_step_eq palette pixels size tx ty y tile hx (by omega)
    (fun x hx8 => h x y hx8 hy8)

theorem foldlM_ok_inv {ε σ β : Type} (f : σ → β → Except ε σ) (g : σ → β → σ)
    (P : σ → Prop) (l : List β) :
    ∀ (s : σ), P s → (∀ b ∈ l, ∀ s, P s → f s b = .ok (g s b) ∧ P (g s b)) →
      l.foldlM f s = .ok (l.foldl g s) ∧ P (l.foldl g s) := by
  induction l with
  | nil => intro s hs _; exact ⟨rfl, hs⟩
  | cons b rest ih =>
    intro s hs h
    obtain ⟨h1, h2⟩ := h b (List.mem_cons_self _ _) s hs
    rw [List.foldlM_cons, h1, ok_bind, List.foldl_cons]
    exact ih _ h2 (fun b' hb' => h b' (List.mem_cons_of_mem _ hb'))

theorem grid_index_lt (TX TY tx ty : Nat) (htx : tx < TX) (hty : ty < TY) :
    ty * TX + tx < TX * TY := by
  calc ty * TX + tx < ty * TX + TX := by omega
    _ = (ty + 1) * TX := by ring
    _ ≤ TY * TX := Nat.mul_le_mul_right _ hty
    _ = TX * TY := Nat.mul_comm _ _

/-- When every pixel of the tiled area is inside the vector and has an
index, and `tiles_x * tiles_y` does not wrap, the two outer loops end with the
vector `tiles_of`: every store of line 112 is inside the vector. -/
theorem build_tiles_eq (palette : Palette) (pixels : List u8vec4) (size : uvec2)
    (hb : size.x.val / 8 * (size.y.val / 8) < 4294967296)
    (h : ∀ X Y, X < size.x.val / 8 * 8 → Y < size.y.val / 8 * 8 →
      Classified palette pixels size X Y) :
    build_tiles palette pixels size = .ok (tiles_of palette pixels size) := by
  have hw := size.x.isLt
  have hh := size.y.isLt
  unfold build_tiles tiles_of
  refine (foldlM_ok_inv
    (fun tiles ty =>
      (List.range (size.x.val / 8)).foldlM (tiles_step palette pixels size ty) tiles)
    (fun tiles ty => (List.range (size.x.val / 8)).foldl
      (fun tiles tx =>
        tiles.set ((ty * (size.x.val / 8) + tx) % 4294967296)
          (tile_of palette pixels size tx ty)) tiles)
    (fun ts : List Tile => ts.length = size.x.val / 8 * (size.y.val / 8))
    (List.range (size.y.val / 8)) _
    (by simp only [List.length_replicate]; exact Nat.mod_eq_of_lt hb) ?_).1
  intro ty hty ts hts
  rw [List.mem_range] at hty
  refine foldlM_ok_inv (tiles_step palette pixels size ty)
    (fun tiles tx =>
      tiles.set ((ty * (size.x.val / 8) + tx) % 4294967296)
        (tile_of palette pixels size tx ty))
    (fun ts : List Tile => ts.length = size.x.val / 8 * (size.y.val / 8))
    (List.range (size.x.val / 8)) ts hts ?_
  intro tx htx ts' hts'
  rw [List.mem_range] at htx
  have e := build_tile_eq palette pixels size tx ty (by omega) (by omega)
    (fun x y hx hy => h _ _ (by omega) (by omega))
  have hlt := grid_index_lt _ _ tx ty htx hty
  have hidx : (ty * (size.x.val / 8) + tx) % 4294967296 < ts'.length := by
    rw [hts', Nat.mod_eq_of_lt (by omega)]; exact hlt
  refine ⟨?_, by simp only [List.length_set]; exact hts'⟩
  simp only [tiles_step, e, hidx, if_true]

/-- A pixel inside an image whose vector has `width * height` elements is
inside the vector. -/
theorem src_index_lt (size : uvec2) (X Y : Nat) (hX : X < size.x.val) (hY : Y < size.y.val) :
    src_index size X Y < size.x.val * size.y.val := by
  unfold src_index
  calc Y * size.x.val + X < Y * size.x.val + size.x.val := by omega
    _ = (Y + 1) * size.x.val := by ring
    _ ≤ size.y.val * size.x.val := Nat.mul_le_mul_right _ hY
    _ = size.x.val * size.y.val := Nat.mul_comm _ _

/-! ## Second pass: the index of a pixel -/

theorem fill_palette_get?_succ (u : List u8vec4) (hu : u.length ≤ 3) (i : Nat)
    (hi : i < u.length) : (fill_palette u).get? (1 + i) = u[i]? := by
  rw [StdArray.get?, fill_palette_val u hu, Nat.add_comm, List.getElem?_cons_succ,
    List.getElem?_append_left hi]

theorem palette_index_of_transparent (palette : Palette) (px : u8vec4) (h : px.a.val < 128) :
    palette_index_of palette px = .ok 0 := by
  simp [palette_index_of, h]

/-- The index of a pixel of the image under the palette of the first pass. -/
theorem palette_index_of_ok (pixels : List u8vec4) (px : u8vec4) (hpx : px ∈ pixels)
    (hu : (first_seen (solid_colors pixels)).length ≤ 3) :
    ∃ idx, palette_index_of (fill_palette (first_seen (solid_colors pixels))) px = .ok idx
      ∧ idx ≤ 3
      ∧ (idx = 0 ↔ px.a.val < 128)
      ∧ (128 ≤ px.a.val →
          (fill_palette (first_seen (solid_colors pixels))).get? idx = some (solid_of px)) := by
  by_cases ha : px.a.val < 128
  · exact ⟨0, palette_index_of_transparent _ px ha, by omega, by simp [ha], by omega⟩
  · have hmem : solid_of px ∈ first_seen (solid_colors pixels) := by
      rw [mem_first_seen]
      simp only [solid_colors, List.mem_map, List.mem_filter, decide_eq_true_eq]
      exact ⟨px, ⟨hpx, by omega⟩, rfl⟩
    obtain ⟨i, hi, hget⟩ := List.getElem_of_mem hmem
    have hslot := fill_palette_get?_succ _ hu i hi
    rw [List.getElem?_eq_getElem hi, hget] at hslot
    cases hfind : (List.range 3).find?
        (fun i => (fill_palette (first_seen (solid_colors pixels))).get? (1 + i)
          == some (solid_of px)) with
    | none =>
      rw [List.find?_eq_none] at hfind
      have := hfind i (List.mem_range.2 (by omega))
      simp [hslot] at this
    | some j =>
      have hj := List.find?_some hfind
      have hj3 := List.mem_range.1 (List.mem_of_find?_eq_some hfind)
      simp only [beq_iff_eq] at hj
      refine ⟨1 + j, ?_, by omega, ?_, fun _ => hj⟩
      · simp only [palette_index_of, ha, if_false, hfind]
      · constructor
        · intro h0; omega
        · intro h0; exact absurd h0 ha

/-! ## Second pass: the bits of a row -/

theorem testBit_step (f : Nat → Nat) (hf : ∀ x, f x = 0 ∨ f x = 1) (b : Byte) (x k : Nat)
    (hk : k < 8) :
    (toU8 (b.val ||| (f x <<< x))).val.testBit k
      = (b.val.testBit k || (decide (k = x) && decide (f x = 1))) := by
  have h256 : (256 : Nat) = 2 ^ 8 := by norm_num
  simp only [toU8, h256, Nat.testBit_mod_two_pow, hk, decide_True, Bool.true_and,
    Nat.testBit_or, Nat.testBit_shiftLeft]
  congr 1
  rcases hf x with h0 | h1
  · simp [h0]
  · rw [h1]
    by_cases hkx : k = x
    · subst hkx; simp
    · by_cases hge : k ≥ x
      · have hne : k - x ≠ 0 := by omega
        have hbit : Nat.testBit 1 (k - x) = false := by
          rw [Bool.eq_false_iff]
          exact fun h => hne (Nat.testBit_one_eq_true_iff_self_eq_zero.1 h)
        simp [hkx, hge, hbit]
      · simp [hkx, hge]

theorem testBit_foldl_step (f : Nat → Nat) (hf : ∀ x, f x = 0 ∨ f x = 1) (l : List Nat)
    (k : Nat) (hk : k < 8) :
    ∀ (b : Byte),
      (l.foldl (fun b x => toU8 (b.val ||| (f x <<< x))) b).val.testBit k
        = (b.val.testBit k || (decide (k ∈ l) && decide (f k = 1))) := by
  induction l with
  | nil => intro b; simp
  | cons x rest ih =>
    intro b
    rw [List.foldl_cons, ih, testBit_step f hf b x k hk]
    by_cases hkx : k = x
    · subst hkx
      cases b.val.testBit k <;> cases decide (f k = 1) <;> simp
    · have : k ≠ x := hkx
      simp [hkx]

theorem foldl_row_next_fst (palette : Palette) (pixels : List u8vec4) (size : uvec2)
    (tx img_y : Nat) (l : List Nat) :
    ∀ (acc : Byte × Byte),
      (l.foldl (row_next palette pixels size tx img_y) acc).1
        = l.foldl (fun b x => toU8 (b.val
            ||| (bit_of (index_at palette pixels size (tx * 8 + x) img_y) 1 <<< x))) acc.1 := by
  induction l with
  | nil => intro acc; rfl
  | cons x rest ih => intro acc; rw [List.foldl_cons, ih, List.foldl_cons]; rfl

theorem foldl_row_next_snd (palette : Palette) (pixels : List u8vec4) (size : uvec2)
    (tx img_y : Nat) (l : List Nat) :
    ∀ (acc : Byte × Byte),
      (l.foldl (row_next palette pixels size tx img_y) acc).2
        = l.foldl (fun b x => toU8 (b.val
            ||| (bit_of (index_at palette pixels size (tx * 8 + x) img_y) 2 <<< x))) acc.2 := by
  induction l with
  | nil => intro acc; rfl
  | cons x rest ih => intro acc; rw [List.foldl_cons, ih, List.foldl_cons]; rfl

theorem bit_of_cases (idx mask : Nat) : bit_of idx mask = 0 ∨ bit_of idx mask = 1 := by
  unfold bit_of; split <;> simp

/-- Bit `x` of the two bytes of a row. -/
theorem row_bytes_testBit (palette : Palette) (pixels : List u8vec4) (size : uvec2)
    (tx img_y x : Nat) (hx : x < 8) :
    (row_bytes palette pixels size tx img_y).1.val.testBit x
        = decide (bit_of (index_at palette pixels size (tx * 8 + x) img_y) 1 = 1)
      ∧ (row_bytes palette pixels size tx img_y).2.val.testBit x
        = decide (bit_of (index_at palette pixels size (tx * 8 + x) img_y) 2 = 1) := by
  have hmem : x ∈ List.range 8 := List.mem_range.2 hx
  constructor
  · rw [row_bytes, foldl_row_next_fst,
      testBit_foldl_step (fun x => bit_of (index_at palette pixels size (tx * 8 + x) img_y) 1)
        (fun _ => bit_of_cases _ _) _ x hx]
    simp [hmem]
  · rw [row_bytes, foldl_row_next_snd,
      testBit_foldl_step (fun x => bit_of (index_at palette pixels size (tx * 8 + x) img_y) 2)
        (fun _ => bit_of_cases _ _) _ x hx]
    simp [hmem]

theorem bits_of_index (idx : Nat) (h : idx ≤ 3) :
    (if decide (bit_of idx 1 = 1) = true then 1 else 0)
      + (if decide (bit_of idx 2 = 1) = true then 2 else 0) = idx := by
  interval_cases idx <;> decide

/-! ## Second pass: the rows of a tile -/

theorem foldl_tile_next_get? (palette : Palette) (pixels : List u8vec4) (size : uvec2)
    (tx ty : Nat) (l : List Nat) (k : Nat) (hk : k < 8) :
    ∀ (tile : Tile),
      ((l.foldl (tile_next palette pixels size tx ty) tile).bit0.get? k
          = if k ∈ l then some (row_bytes palette pixels size tx (ty * 8 + k)).1
            else tile.bit0.get? k)
      ∧ ((l.foldl (tile_next palette pixels size tx ty) tile).bit1.get? k
          = if k ∈ l then some (row_bytes palette pixels size tx (ty * 8 + k)).2
            else tile.bit1.get? k) := by
  induction l with
  | nil => intro tile; simp
  | cons y rest ih =>
    intro tile
    rw [List.foldl_cons]
    obtain ⟨h0, h1⟩ := ih (tile_next palette pixels size tx ty tile y)
    rw [h0, h1]
    have l0 : tile.bit0.val.length = 8 := tile.bit0.property
    have l1 : tile.bit1.val.length = 8 := tile.bit1.property
    by_cases hky : k = y
    · subst hky
      by_cases hr : k ∈ rest
      · simp [hr]
      · simp [hr, tile_next, StdArray.get?, StdArray.set, List.getElem?_set, l0, l1, hk]
    · have hyk : y ≠ k := fun h => hky h.symm
      by_cases hr : k ∈ rest
      · simp [hr]
      · simp [hr, hky, tile_next, StdArray.get?, StdArray.set, List.getElem?_set, hyk]

/-- The index decoded from the tile of grid cell `(tx, ty)` at its pixel
`(x, y)` is the index of the image pixel `(tx*8 + x, ty*8 + y)`. -/
theorem decoded_index_tile_of (palette : Palette) (pixels : List u8vec4) (size : uvec2)
    (tx ty x y : Nat) (hx : x < 8) (hy : y < 8)
    (h3 : index_at palette pixels size (tx * 8 + x) (ty * 8 + y) ≤ 3) :
    decoded_index (tile_of palette pixels size tx ty) x y
      = some (index_at palette pixels size (tx * 8 + x) (ty * 8 + y)) := by
  obtain ⟨h0, h1⟩ := foldl_tile_next_get? palette pixels size tx ty (List.range 8) y hy zero_tile
  have hmem : y ∈ List.range 8 := List.mem_range.2 hy
  rw [if_pos hmem] at h0 h1
  obtain ⟨t0, t1⟩ := row_bytes_testBit palette pixels size tx (ty * 8 + y) x hx
  simp only [decoded_index, tile_of, h0, h1, t0, t1]
  rw [bits_of_index _ h3]

/-! ## Second pass: the vector of tiles -/

theorem foldl_set_length {β α : Type} (key : β → Nat) (val : β → α) (l : List β) :
    ∀ (ts : List α),
      (l.foldl (fun ts b => ts.set (key b) (val b)) ts).length = ts.length := by
  induction l with
  | nil => intro ts; rfl
  | cons b rest ih => intro ts; rw [List.foldl_cons, ih, List.length_set]

theorem foldl_set_getElem?_ne {β α : Type} (key : β → Nat) (val : β → α) (l : List β)
    (i : Nat) :
    ∀ (ts : List α), (∀ b ∈ l, key b ≠ i) →
      (l.foldl (fun ts b => ts.set (key b) (val b)) ts)[i]? = ts[i]? := by
  induction l with
  | nil => intro ts _; rfl
  | cons b rest ih =>
    intro ts h
    rw [List.foldl_cons, ih _ (fun b' hb' => h b' (List.mem_cons_of_mem _ hb')),
      List.getElem?_set_ne (h b (List.mem_cons_self _ _))]

/-- After a loop of stores `ts[key b] = val b`, an index inside the vector
that some turn stores to holds the value that all these turns store. -/
theorem foldl_set_getElem?_mem {β α : Type} (key : β → Nat) (val : β → α) (l : List β)
    (i : Nat) (v : α) :
    ∀ (ts : List α), (∃ b ∈ l, key b = i) → i < ts.length →
      (∀ b ∈ l, key b = i → val b = v) →
      (l.foldl (fun ts b => ts.set (key b) (val b)) ts)[i]? = some v := by
  induction l with
  | nil => intro ts hex; simp at hex
  | cons a rest ih =>
    intro ts hex hlt hc
    rw [List.foldl_cons]
    by_cases hrest : ∃ b ∈ rest, key b = i
    · exact ih _ hrest (by rw [List.length_set]; exact hlt)
        (fun b hb hk => hc b (List.mem_cons_of_mem _ hb) hk)
    · have hne : ∀ b ∈ rest, key b ≠ i := fun b hb hk => hrest ⟨b, hb, hk⟩
      obtain ⟨b, hb, hk⟩ := hex
      have hba : b = a := by
        rcases List.mem_cons.1 hb with h | h
        · exact h
        · exact absurd hk (hne b h)
      subst hba
      have hv : val b = v := hc b (List.mem_cons_self _ _) hk
      rw [foldl_set_getElem?_ne key val rest i _ hne, hk, hv]
      simp [List.getElem?_set, hlt]

theorem foldl_nested {σ α β : Type} (h : σ → α → β → σ) (l1 : List α) (l2 : List β) :
    ∀ (s : σ),
      l1.foldl (fun s a => l2.foldl (fun s b => h s a b) s) s
        = (l1.flatMap (fun a => l2.map (fun b => (a, b)))).foldl (fun s p => h s p.1 p.2) s := by
  induction l1 with
  | nil => intro s; rfl
  | cons a rest ih =>
    intro s
    rw [List.foldl_cons, ih, List.flatMap_cons, List.foldl_append, List.foldl_map]

theorem tiles_of_flat (palette : Palette) (pixels : List u8vec4) (size : uvec2) :
    tiles_of palette pixels size
      = ((List.range (size.y.val / 8)).flatMap
          (fun ty => (List.range (size.x.val / 8)).map (fun tx => (ty, tx)))).foldl
          (fun ts p => ts.set ((p.1 * (size.x.val / 8) + p.2) % 4294967296)
            (tile_of palette pixels size p.2 p.1))
          (List.replicate ((size.x.val / 8 * (size.y.val / 8)) % 4294967296) zero_tile) := by
  unfold tiles_of
  exact foldl_nested
    (fun (ts : List Tile) (ty tx : Nat) =>
      ts.set ((ty * (size.x.val / 8) + tx) % 4294967296)
        (tile_of palette pixels size tx ty)) _ _ _

/-- The number of tiles: the product `tiles_x * tiles_y` in `uint32_t`. -/
theorem tiles_of_length (palette : Palette) (pixels : List u8vec4) (size : uvec2) :
    (tiles_of palette pixels size).length
      = (size.x.val / 8 * (size.y.val / 8)) % 4294967296 := by
  rw [tiles_of_flat, foldl_set_length, List.length_replicate]

theorem grid_index_inj (TX tx ty tx' ty' : Nat) (htx : tx < TX) (htx' : tx' < TX)
    (h : ty' * TX + tx' = ty * TX + tx) : ty' = ty ∧ tx' = tx := by
  have hy : ty' = ty := by
    rcases Nat.lt_trichotomy ty' ty with hlt | heq | hgt
    · have := Nat.mul_le_mul_right TX (show ty' + 1 ≤ ty from hlt)
      have e : (ty' + 1) * TX = ty' * TX + TX := by ring
      omega
    · exact heq
    · have := Nat.mul_le_mul_right TX (show ty + 1 ≤ ty' from hgt)
      have e : (ty + 1) * TX = ty * TX + TX := by ring
      omega
  subst hy
  exact ⟨rfl, by omega⟩

/-- When `tiles_x * tiles_y` does not wrap, the tile stored at index
`ty * tiles_x + tx` is the tile of grid cell `(tx, ty)`. -/
theorem tiles_of_getElem? (palette : Palette) (pixels : List u8vec4) (size : uvec2)
    (tx ty : Nat) (hb : size.x.val / 8 * (size.y.val / 8) < 4294967296)
    (htx : tx < size.x.val / 8) (hty : ty < size.y.val / 8) :
    (tiles_of palette pixels size)[ty * (size.x.val / 8) + tx]?
      = some (tile_of palette pixels size tx ty) := by
  have hlt := grid_index_lt _ _ tx ty htx hty
  rw [tiles_of_flat]
  apply foldl_set_getElem?_mem
    (fun p : Nat × Nat => (p.1 * (size.x.val / 8) + p.2) % 4294967296)
    (fun p : Nat × Nat => tile_of palette pixels size p.2 p.1)
  · refine ⟨(ty, tx), ?_, ?_⟩
    · simp only [List.mem_flatMap, List.mem_map, List.mem_range]
      exact ⟨ty, hty, tx, htx, rfl⟩
    · show (ty * (size.x.val / 8) + tx) % 4294967296 = ty * (size.x.val / 8) + tx
      exact Nat.mod_eq_of_lt (by omega)
  · rw [List.length_replicate, Nat.mod_eq_of_lt hb]; exact hlt
  · intro p hp hk
    simp only [List.mem_flatMap, List.mem_map, List.mem_range] at hp
    obtain ⟨ty', hty', tx', htx', rfl⟩ := hp
    have hlt' := grid_index_lt _ _ tx' ty' htx' hty'
    have hk' : (ty' * (size.x.val / 8) + tx') % 4294967296
        = ty * (size.x.val / 8) + tx := hk
    rw [Nat.mod_eq_of_lt (by omega)] at hk'
    obtain ⟨rfl, rfl⟩ := grid_index_inj _ tx ty tx' ty' htx htx' hk'
    rfl

/-! ## The whole function -/

/-- When the first pass finds at most 3 colours and the vector holds
`width * height` pixels, `build_palette_and_tiles` returns the palette of
`fill_palette` and the tiles of `tiles_of`. -/
theorem build_eq (size : uvec2) (pixels : List u8vec4)
    (hlen : pixels.length = size.x.val * size.y.val)
    (hu : (first_seen (solid_colors pixels)).length ≤ 3)
    (hb : size.x.val / 8 * (size.y.val / 8) < 4294967296) :
    build_palette_and_tiles size pixels
      = .ok ⟨fill_palette (first_seen (solid_colors pixels)),
          tiles_of (fill_palette (first_seen (solid_colors pixels))) pixels size⟩ := by
  have ht : build_tiles (fill_palette (first_seen (solid_colors pixels))) pixels size
      = .ok (tiles_of (fill_palette (first_seen (solid_colors pixels))) pixels size) := by
    apply build_tiles_eq _ _ _ hb
    intro X Y hX hY
    have hi : src_index size X Y < pixels.length := by
      rw [hlen]; exact src_index_lt size X Y (by omega) (by omega)
    obtain ⟨idx, hidx, _⟩ := palette_index_of_ok pixels pixels[src_index size X Y]
      (List.getElem_mem _) hu
    exact ⟨_, idx, List.getElem?_eq_getElem hi, hidx⟩
  unfold build_palette_and_tiles
  rw [scan_pixels_nil_acc, if_pos hu]
  simp only [ht]

theorem index_at_eq (palette : Palette) (pixels : List u8vec4) (size : uvec2) (X Y : Nat)
    (px : u8vec4) (idx : Nat) (hpx : pixels[src_index size X Y]? = some px)
    (hidx : palette_index_of palette px = .ok idx) :
    index_at palette pixels size X Y = idx := by
  have hd : pixels.getD (src_index size X Y) transparent = px := by
    rw [List.getD_eq_getElem?_getD, hpx]; rfl
  simp only [index_at, hd, hidx]

/-- For every image whose width and height are multiples of 8, whose pixel
vector has `width * height` elements, which has at most 3 distinct colours
among the pixels with alpha >= 128, and whose number of tiles
`(width/8) * (height/8)` is below 2^32, `build_palette_and_tiles` succeeds and
is lossless: for every pixel the index decoded from its tile is 0 exactly when
its alpha is below 128, and otherwise the palette entry at that index is
`(r, g, b, 255)` of the pixel. -/
theorem build_lossless (size : uvec2) (pixels : List u8vec4)
    (hw : size.x.val % 8 = 0) (hh : size.y.val % 8 = 0)
    (hlen : pixels.length = size.x.val * size.y.val)
    (hc : (solid_colors pixels).toFinset.card ≤ 3)
    (hb : size.x.val / 8 * (size.y.val / 8) < 4294967296) :
    ∃ r, build_palette_and_tiles size pixels = .ok r ∧ Lossless size pixels r := by
  have hu : (first_seen (solid_colors pixels)).length ≤ 3 := by
    rw [length_first_seen]; exact hc
  refine ⟨_, build_eq size pixels hlen hu hb, ?_⟩
  intro X Y hX hY
  have hi : src_index size X Y < pixels.length := by
    rw [hlen]; exact src_index_lt size X Y hX hY
  obtain ⟨idx, hidx, h3, hzero, hcol⟩ := palette_index_of_ok pixels pixels[src_index size X Y]
    (List.getElem_mem _) hu
  have hpx : pixels[src_index size X Y]? = some pixels[src_index size X Y] :=
    List.getElem?_eq_getElem hi
  have hat := index_at_eq _ pixels size X Y _ idx hpx hidx
  have hXe : X / 8 * 8 + X % 8 = X := by omega
  have hYe : Y / 8 * 8 + Y % 8 = Y := by omega
  refine ⟨pixels[src_index size X Y], _, idx, hpx,
    tiles_of_getElem? _ pixels size (X / 8) (Y / 8) hb (by omega) (by omega), ?_, hzero, hcol⟩
  rw [decoded_index_tile_of _ pixels size (X / 8) (Y / 8) (X % 8) (Y % 8) (by omega) (by omega)
    (by rw [hXe, hYe, hat]; exact h3), hXe, hYe, hat]

/-- The 8x8 image with one transparent pixel is reproduced by its palette and
tile. -/
theorem build_lossless_example :
    (8 : U32).val % 8 = 0
      ∧ example_image.length = (8 : U32).val * (8 : U32).val
      ∧ (solid_colors example_image).toFinset.card ≤ 3
      ∧ (8 : U32).val / 8 * ((8 : U32).val / 8) < 4294967296
      ∧ ∃ r, build_palette_and_tiles ⟨8, 8⟩ example_image = .ok r
          ∧ Lossless ⟨8, 8⟩ example_image r :=
  ⟨by decide, by decide, by decide, by decide,
    build_lossless ⟨8, 8⟩ example_image (by decide) (by decide) (by decide) (by decide)
      (by decide)⟩

theorem foldlM_invariant {ε σ β : Type} (f : σ → β → Except ε σ) (P : σ → Prop)
    (hstep : ∀ s b s', f s b = .ok s' → P s → P s') (l : List β) :
    ∀ (s res : σ), P s → l.foldlM f s = .ok res → P res := by
  induction l with
  | nil =>
    intro s res hs h
    simp only [List.foldlM_nil, pure, Except.pure] at h
    cases h
    exact hs
  | cons b rest ih =>
    intro s res hs h
    rw [List.foldlM_cons] at h
    cases hf : f s b with
    | error e => rw [hf, error_bind] at h; cases h
    | ok s' =>
      rw [hf, ok_bind] at h
      exact ih s' res (hstep s b s' hf hs) h

/-- Whenever the two outer loops end, the vector has `tiles_x * tiles_y`
elements, the product taken in `uint32_t`. -/
theorem build_tiles_length (palette : Palette) (pixels : List u8vec4) (size : uvec2)
    (tiles : List Tile) (h : build_tiles palette pixels size = .ok tiles) :
    tiles.length = (size.x.val / 8 * (size.y.val / 8)) % 4294967296 := by
  unfold build_tiles at h
  refine foldlM_invariant _
    (fun ts : List Tile => ts.length = (size.x.val / 8 * (size.y.val / 8)) % 4294967296)
    ?_ _ _ _ (List.length_replicate _ _) h
  intro ts ty ts' hrow hts
  refine foldlM_invariant _
    (fun ts : List Tile => ts.length = (size.x.val / 8 * (size.y.val / 8)) % 4294967296)
    ?_ _ _ _ hts hrow
  intro ts1 tx ts2 hstep hts1
  unfold tiles_step at hstep
  cases hbt : build_tile palette pixels size tx ty with
  | error e => rw [hbt] at hstep; cases hstep
  | ok tile =>
    rw [hbt] at hstep
    simp only at hstep
    split at hstep
    · cases hstep
      rw [List.length_set]; exact hts1
    · cases hstep

theorem build_ok_tiles_length (size : uvec2) (pixels : List u8vec4) (r : PackedTiles)
    (h : build_palette_and_tiles size pixels = .ok r) :
    r.tiles.length = (size.x.val / 8 * (size.y.val / 8)) % 4294967296 := by
  unfold build_palette_and_tiles at h
  cases hs : scan_pixels pixels [] with
  | error e => rw [hs] at h; cases h
  | ok u =>
    rw [hs] at h
    simp only at h
    cases hb : build_tiles (fill_palette u) pixels size with
    | error e => rw [hb] at h; cases h
    | ok tiles =>
      rw [hb] at h
      cases h
      exact build_tiles_length _ _ _ _ hb

theorem solid_colors_of_transparent (pixels : List u8vec4)
    (ha : ∀ px ∈ pixels, px.a.val < 128) : solid_colors pixels = [] := by
  simp only [solid_colors, List.map_eq_nil_iff, List.filter_eq_nil_iff, decide_eq_true_eq]
  intro px hpx
  have := ha px hpx
  omega

/-- C2, the code at the failing input: for the image of 2^19 by 2^19
transparent pixels all hypotheses of the claim hold, but `tiles_x * tiles_y`
is 2^32, which is 0 in `uint32_t`: `tiles.resize(0)` leaves the vector empty,
the store of line 112 is outside it, and no lossless result is returned. -/
theorem build_lossless_wrapped :
    huge_size.x.val % 8 = 0 ∧ huge_size.y.val % 8 = 0
      ∧ huge_image.length = huge_size.x.val * huge_size.y.val
      ∧ (solid_colors huge_image).toFinset.card ≤ 3
      ∧ ¬ ∃ r, build_palette_and_tiles huge_size huge_image = .ok r
          ∧ Lossless huge_size huge_image r := by
  have hlen : huge_image.length = 274877906944 := List.length_replicate _ _
  have hprod : huge_size.x.val * huge_size.y.val = 274877906944 := by decide
  have hsolid : solid_colors huge_image = [] := by
    apply solid_colors_of_transparent
    intro px hpx
    rw [List.eq_of_mem_replicate hpx]
    decide
  refine ⟨by decide, by decide, hlen.trans hprod.symm, by rw [hsolid]; decide, ?_⟩
  rintro ⟨r, hr, hl⟩
  have hn := build_ok_tiles_length huge_size huge_image r hr
  have h0 : (huge_size.x.val / 8 * (huge_size.y.val / 8)) % 4294967296 = 0 := by decide
  rw [h0, List.length_eq_zero] at hn
  obtain ⟨px, tile, idx, _, htile, _⟩ := hl 0 0 (by decide) (by decide)
  rw [hn] at htile
  simp at htile

/-! ## The palette of the result -/

theorem first_seen_const (l : List u8vec4) (c : u8vec4) (hall : ∀ d ∈ l, d = c)
    (hne : l ≠ []) : first_seen l = [c] := by
  cases l with
  | nil => exact absurd rfl hne
  | cons d rest =>
    have hd : d = c := hall d (List.mem_cons_self _ _)
    subst hd
    simp only [first_seen, List.cons.injEq, true_and, List.filter_eq_nil_iff,
      decide_eq_true_eq, not_not]
    intro e he
    exact hall e (List.mem_cons_of_mem _ ((mem_first_seen rest e).1 he))

/-- The colours of an image of one solid colour with one transparent pixel. -/
theorem first_seen_one_hole (n k : Nat) (p t : u8vec4) (hn : 2 ≤ n) (ht : t.a.val < 128)
    (hp : 128 ≤ p.a.val) :
    first_seen (solid_colors ((List.replicate n p).set k t)) = [solid_of p] := by
  apply first_seen_const
  · intro d hd
    simp only [solid_colors, List.mem_map, List.mem_filter, decide_eq_true_eq] at hd
    obtain ⟨px, ⟨hpx, ha⟩, rfl⟩ := hd
    rcases List.mem_or_eq_of_mem_set hpx with h | h
    · rw [List.eq_of_mem_replicate h]
    · subst h; omega
  · have hj : ∃ j, j < n ∧ j ≠ k := by
      by_cases hk : k = 0
      · exact ⟨1, by omega, by omega⟩
      · exact ⟨0, by omega, fun h => hk h.symm⟩
    obtain ⟨j, hjn, hjk⟩ := hj
    have hmem : p ∈ (List.replicate n p).set k t := by
      have hget : ((List.replicate n p).set k t)[j]? = some p := by
        rw [List.getElem?_set_ne (fun h => hjk h.symm)]
        simp [List.getElem?_replicate, hjn]
      exact List.getElem?_mem hget
    intro hnil
    have : solid_of p ∈ solid_colors ((List.replicate n p).set k t) := by
      simp only [solid_colors, List.mem_map, List.mem_filter, decide_eq_true_eq]
      exact ⟨p, ⟨hmem, hp⟩, rfl⟩
    rw [hnil] at this
    simp at this

/-- C4: on every image on which `build_palette_and_tiles` succeeds, the
distinct colours of the pixels with alpha >= 128, in the order of their first
appearance in the scan, are n <= 3, and the returned palette is (0,0,0,0),
then these colours with alpha 255, then (0,0,0,0) in every remaining slot up
to slot 3. An 8x8 image with one transparent pixel and 63 pixels of RGB
(200,50,50) yields [(0,0,0,0), (200,50,50,255), (0,0,0,0), (0,0,0,0)]. -/
theorem build_palette_first_seen (size : uvec2) (pixels : List u8vec4) :
    (∀ r, build_palette_and_tiles size pixels = .ok r →
      (first_seen (solid_colors pixels)).length ≤ 3
        ∧ r.palette.val
          = (⟨0, 0, 0, 0⟩ : u8vec4) :: (first_seen (solid_colors pixels)
              ++ List.replicate (3 - (first_seen (solid_colors pixels)).length)
                  (⟨0, 0, 0, 0⟩ : u8vec4)))
    ∧ (∀ (k : Nat) (t : u8vec4) (a : Byte), k < 64 → t.a.val < 128 → 128 ≤ a.val →
        ∃ r, build_palette_and_tiles ⟨8, 8⟩
              ((List.replicate 64 (⟨200, 50, 50, a⟩ : u8vec4)).set k t) = .ok r
          ∧ r.palette.val
            = [⟨0, 0, 0, 0⟩, ⟨200, 50, 50, 255⟩, ⟨0, 0, 0, 0⟩, ⟨0, 0, 0, 0⟩]) := by
  constructor
  · intro r h
    obtain ⟨hu, hp⟩ := build_ok_palette size pixels r h
    exact ⟨hu, by rw [hp]; exact fill_palette_val _ hu⟩
  · intro k t a _ ht ha
    have hfs := first_seen_one_hole 64 k ⟨200, 50, 50, a⟩ t (by decide) ht ha
    have hb := build_eq ⟨8, 8⟩ ((List.replicate 64 (⟨200, 50, 50, a⟩ : u8vec4)).set k t)
      (by rw [List.length_set, List.length_replicate]; decide) (by rw [hfs]; simp)
      (by decide)
    rw [hfs] at hb
    exact ⟨_, hb, rfl⟩

/-- C4, witness: the 8x8 image with one transparent pixel at position 10. -/
theorem build_palette_first_seen_witness :
    ∃ r, build_palette_and_tiles ⟨8, 8⟩ example_image = .ok r
      ∧ (first_seen (solid_colors example_image)).length ≤ 3
      ∧ r.palette.val
          = (⟨0, 0, 0, 0⟩ : u8vec4) :: (first_seen (solid_colors example_image)
              ++ List.replicate (3 - (first_seen (solid_colors example_image)).length)
                  (⟨0, 0, 0, 0⟩ : u8vec4)) :=
  ⟨⟨fill_palette [⟨200, 50, 50, 255⟩], tiles_of (fill_palette [⟨200, 50, 50, 255⟩])
      example_image ⟨8, 8⟩⟩, rfl,
    (build_palette_first_seen ⟨8, 8⟩ example_image).1 _ rfl⟩

/-- C5, witness: the 8x8 image with one transparent pixel at position 10. -/
theorem build_slot_zero_witness :
    ∃ r, build_palette_and_tiles ⟨8, 8⟩ example_image = .ok r
      ∧ r.palette.get? 0 = some ⟨0, 0, 0, 0⟩ :=
  ⟨⟨fill_palette [⟨200, 50, 50, 255⟩], tiles_of (fill_palette [⟨200, 50, 50, 255⟩])
      example_image ⟨8, 8⟩⟩, rfl,
    (build_slot_zero ⟨8, 8⟩ example_image _ rfl).1⟩

/-- C3, witness: four pixels of four colours. -/
theorem build_too_many_colors_witness :
    3 < (solid_colors
          [⟨1, 0, 0, 255⟩, ⟨2, 0, 0, 255⟩, ⟨3, 0, 0, 200⟩, ⟨4, 0, 0, 128⟩]).toFinset.card
      ∧ build_palette_and_tiles ⟨8, 8⟩
          [⟨1, 0, 0, 255⟩, ⟨2, 0, 0, 255⟩, ⟨3, 0, 0, 200⟩, ⟨4, 0, 0, 128⟩]
        = .error .too_many_colors :=
  ⟨by decide, build_too_many_colors _ _ (by decide)⟩

/-! ## Images without a solid pixel -/

theorem foldl_fixed {σ β : Type} (g : σ → β → σ) (l : List β) (s : σ)
    (h : ∀ b ∈ l, g s b = s) : l.foldl g s = s := by
  induction l with
  | nil => rfl
  | cons b rest ih =>
    rw [List.foldl_cons, h b (List.mem_cons_self _ _)]
    exact ih (fun b' hb' => h b' (List.mem_cons_of_mem _ hb'))

theorem index_at_of_transparent (palette : Palette) (pixels : List u8vec4) (size : uvec2)
    (ha : ∀ px ∈ pixels, px.a.val < 128) (X Y : Nat) :
    index_at palette pixels size X Y = 0 := by
  have hlt : (pixels.getD (src_index size X Y) transparent).a.val < 128 := by
    rw [List.getD_eq_getElem?_getD]
    cases hget : pixels[src_index size X Y]? with
    | none => decide
    | some px => exact ha px (List.getElem?_mem hget)
  simp only [index_at, palette_index_of_transparent _ _ hlt]

theorem row_bytes_of_transparent (palette : Palette) (pixels : List u8vec4) (size : uvec2)
    (ha : ∀ px ∈ pixels, px.a.val < 128) (tx img_y : Nat) :
    row_bytes palette pixels size tx img_y = ((0 : Byte), (0 : Byte)) := by
  apply foldl_fixed
  intro x _
  simp only [row_next, index_at_of_transparent palette pixels size ha]
  have h1 : bit_of 0 1 = 0 := by decide
  have h2 : bit_of 0 2 = 0 := by decide
  rw [h1, h2]
  simp [toU8]

theorem tile_of_of_transparent (palette : Palette) (pixels : List u8vec4) (size : uvec2)
    (ha : ∀ px ∈ pixels, px.a.val < 128) (tx ty : Nat) :
    tile_of palette pixels size tx ty = zero_tile := by
  apply foldl_fixed
  intro y hy
  rw [List.mem_range] at hy
  simp only [tile_next, row_bytes_of_transparent palette pixels size ha]
  interval_cases y <;> rfl

theorem set_replicate_self {α : Type} (n i : Nat) (a : α) :
    (List.replicate n a).set i a = List.replicate n a := by
  apply List.ext_getElem?
  intro j
  by_cases hij : i = j
  · subst hij
    by_cases hi : i < n
    · simp [List.getElem?_set, List.getElem?_replicate, hi]
    · simp [List.getElem?_set, List.getElem?_replicate, hi]
  · rw [List.getElem?_set_ne hij]

theorem tiles_of_of_transparent (palette : Palette) (pixels : List u8vec4) (size : uvec2)
    (ha : ∀ px ∈ pixels, px.a.val < 128) :
    tiles_of palette pixels size
      = List.replicate ((size.x.val / 8 * (size.y.val / 8)) % 4294967296) zero_tile := by
  unfold tiles_of
  apply foldl_fixed
  intro ty _
  apply foldl_fixed
  intro tx _
  rw [tile_of_of_transparent palette pixels size ha, set_replicate_self]

/-- For every image whose vector has `width * height` elements, all of whose
pixels have alpha < 128 and whose tile count `(width/8) * (height/8)` is below
2^32, `build_palette_and_tiles` succeeds, all four palette slots are
(0,0,0,0), the tiles are `(width/8) * (height/8)` many, and every byte of
`bit0` and `bit1` of every returned tile is 0. -/
theorem build_all_transparent (size : uvec2) (pixels : List u8vec4)
    (hlen : pixels.length = size.x.val * size.y.val)
    (ha : ∀ px ∈ pixels, px.a.val < 128)
    (hb : size.x.val / 8 * (size.y.val / 8) < 4294967296) :
    ∃ r, build_palette_and_tiles size pixels = .ok r
      ∧ r.palette.val = [⟨0, 0, 0, 0⟩, ⟨0, 0, 0, 0⟩, ⟨0, 0, 0, 0⟩, ⟨0, 0, 0, 0⟩]
      ∧ r.tiles.length = size.x.val / 8 * (size.y.val / 8)
      ∧ ∀ tile ∈ r.tiles,
          (∀ b ∈ tile.bit0.val, b = 0) ∧ (∀ b ∈ tile.bit1.val, b = 0) := by
  have hs := solid_colors_of_transparent pixels ha
  have hbd := build_eq size pixels hlen (by rw [hs]; decide) hb
  rw [hs, tiles_of_of_transparent _ pixels size ha] at hbd
  refine ⟨_, hbd, rfl, by rw [List.length_replicate, Nat.mod_eq_of_lt hb], ?_⟩
  intro tile htile
  rw [List.eq_of_mem_replicate htile]
  exact ⟨fun b hb => List.eq_of_mem_replicate hb, fun b hb => List.eq_of_mem_replicate hb⟩

theorem clear_image_transparent : ∀ px ∈ clear_image, px.a.val < 128 := by
  intro px hpx
  rcases List.mem_or_eq_of_mem_set hpx with h | h
  · rw [List.eq_of_mem_replicate h]; decide
  · rw [h]; decide

/-- An 8x8 image of transparent pixels of several colours and alpha values:
the result has one tile, all zero, and the palette is all (0,0,0,0). -/
theorem build_all_transparent_example :
    clear_image.length = (8 : U32).val * (8 : U32).val
      ∧ (∀ px ∈ clear_image, px.a.val < 128)
      ∧ ∃ r, build_palette_and_tiles ⟨8, 8⟩ clear_image = .ok r
          ∧ r.palette.val = [⟨0, 0, 0, 0⟩, ⟨0, 0, 0, 0⟩, ⟨0, 0, 0, 0⟩, ⟨0, 0, 0, 0⟩]
          ∧ r.tiles.length = (8 : U32).val / 8 * ((8 : U32).val / 8)
          ∧ ∀ tile ∈ r.tiles,
              (∀ b ∈ tile.bit0.val, b = 0) ∧ (∀ b ∈ tile.bit1.val, b = 0) :=
  ⟨by decide, clear_image_transparent,
    build_all_transparent ⟨8, 8⟩ clear_image (by decide) clear_image_transparent
      (by decide)⟩

/-! ## The container written -/

/-- C12: for every asset list, the output of `write_sprite_assets` is exactly
four chunks, in the order "name", "pal0", "tile", "sprt", whose payloads are
the concatenation of all names, of all palette sequences, of all tile
sequences, and one descriptor per asset, each in asset order: descriptor `i`
holds the pool sizes before and after asset `i`, as `uint32_t`. -/
theorem write_four_chunks (assets : List SpriteAsset) :
    write_sprite_assets assets
        = write_chunk byte_layout tag_name (assets.flatMap SpriteAsset.name)
          ++ (write_chunk palette_layout tag_pal0 (assets.flatMap SpriteAsset.palettes)
            ++ (write_chunk tile_layout tag_tile (assets.flatMap SpriteAsset.tiles)
              ++ write_chunk sprite_layout tag_sprt (collect_pools assets).metas))
      ∧ (collect_pools assets).metas.length = assets.length
      ∧ ∀ (i : Nat), (collect_pools assets).metas[i]?
          = (assets[i]?).map (fun a =>
            { name_begin := toU32 ((assets.take i).flatMap SpriteAsset.name).length
              name_end := toU32 (((assets.take i).flatMap SpriteAsset.name).length
                + a.name.length)
              pals_begin := toU32 ((assets.take i).flatMap SpriteAsset.palettes).length
              pals_end := toU32 (((assets.take i).flatMap SpriteAsset.palettes).length
                + a.palettes.length)
              tiles_begin := toU32 ((assets.take i).flatMap SpriteAsset.tiles).length
              tiles_end := toU32 (((assets.take i).flatMap SpriteAsset.tiles).length
                + a.tiles.length) }) := by
  refine ⟨?_, ?_, ?_⟩
  · rw [write_sprite_assets, write_pools, collect_pools_eq]
  · rw [collect_pools_eq]; exact descriptors_length assets 0 0 0
  · intro i
    rw [collect_pools_eq]
    simp only [descriptors_getElem?, Nat.zero_add]

/-! ## Success and failure of reading -/

theorem read_step_error (names : List Byte) (pals : List Palette) (tiles : List Tile)
    (out : List SpriteAsset) (m : StoredSprite) (h : ¬ ranges_valid names pals tiles m) :
    ∃ e, read_step names pals tiles out m = .error e := by
  unfold read_step
  split
  · exact ⟨_, rfl⟩
  · split
    · exact ⟨_, rfl⟩
    · split
      · exact ⟨_, rfl⟩
      · rename_i h1 h2 h3
        exact absurd ⟨not_not.1 h1, not_not.1 h2, not_not.1 h3⟩ h

theorem foldlM_read_step_valid (names : List Byte) (pals : List Palette) (tiles : List Tile)
    (metas : List StoredSprite) :
    ∀ (out : List SpriteAsset), (∀ m ∈ metas, ranges_valid names pals tiles m) →
      metas.foldlM (read_step names pals tiles) out
        = .ok (out ++ metas.map (asset_of names pals tiles)) := by
  induction metas with
  | nil => intro out _; simp [pure, Except.pure]
  | cons m rest ih =>
    intro out h
    obtain ⟨hn, hp, ht⟩ := h m (List.mem_cons_self _ _)
    rw [List.foldlM_cons, read_step_ok names pals tiles out m hn hp ht, ok_bind,
      ih _ (fun m' hm' => h m' (List.mem_cons_of_mem _ hm'))]
    simp

/-- The loop of `read_sprite_assets` succeeds exactly when every descriptor
is valid. -/
theorem read_pools_ok_iff (p : Pools) :
    (∃ out, read_pools p = .ok out) ↔ ∀ m ∈ p.metas, ranges_valid p.names p.pals p.tiles m := by
  constructor
  · rintro ⟨out, h⟩
    exact (foldlM_read_step_ok p.names p.pals p.tiles p.metas [] out h).2
  · intro h
    exact ⟨_, foldlM_read_step_valid p.names p.pals p.tiles p.metas [] h⟩

theorem except_ok_or_error {ε α : Type} (x : Except ε α) :
    (∃ a, x = .ok a) ∨ ∃ e, x = .error e := by
  cases x with
  | ok a => exact Or.inl ⟨a, rfl⟩
  | error e => exact Or.inr ⟨e, rfl⟩

/-- C13: for every stream whose four chunks are read successfully,
`read_sprite_assets` succeeds if and only if nothing follows the fourth chunk
and every descriptor satisfies begin <= end <= pool size for each of its three
ranges; in every other case it fails, with an error and no asset list. -/
theorem read_succeeds_iff (src s1 s2 s3 s4 : Stream) (names : List Byte)
    (pals : List Palette) (tiles : List Tile) (metas : List StoredSprite)
    (h1 : read_chunk byte_layout src tag_name = .ok (names, s1))
    (h2 : read_chunk palette_layout s1 tag_pal0 = .ok (pals, s2))
    (h3 : read_chunk tile_layout s2 tag_tile = .ok (tiles, s3))
    (h4 : read_chunk sprite_layout s3 tag_sprt = .ok (metas, s4)) :
    ((∃ out, read_sprite_assets src = .ok out)
        ↔ (s4 = [] ∧ ∀ m ∈ metas, ranges_valid names pals tiles m))
      ∧ (¬ (s4 = [] ∧ ∀ m ∈ metas, ranges_valid names pals tiles m) →
          ∃ e, read_sprite_assets src = .error e) := by
  have hiff : (∃ out, read_sprite_assets src = .ok out)
      ↔ (s4 = [] ∧ ∀ m ∈ metas, ranges_valid names pals tiles m) := by
    cases s4 with
    | cons c rest =>
      simp only [read_sprite_assets, h1, h2, h3, h4]
      simp
    | nil =>
      simp only [read_sprite_assets, h1, h2, h3, h4, true_and]
      exact read_pools_ok_iff ⟨names, pals, tiles, metas⟩
  refine ⟨hiff, fun hnot => ?_⟩
  rcases except_ok_or_error (read_sprite_assets src) with hok | herr
  · exact absurd (hiff.1 hok) hnot
  · exact herr

/-- C13, witness: the stream written for the assets "a" and "b". -/
theorem read_succeeds_iff_witness :
    ∃ names s1 pals s2 tiles s3 metas s4,
      read_chunk byte_layout (write_sprite_assets [asset_a, asset_b]) tag_name
          = .ok (names, s1)
      ∧ read_chunk palette_layout s1 tag_pal0 = .ok (pals, s2)
      ∧ read_chunk tile_layout s2 tag_tile = .ok (tiles, s3)
      ∧ read_chunk sprite_layout s3 tag_sprt = .ok (metas, s4)
      ∧ ((∃ out, read_sprite_assets (write_sprite_assets [asset_a, asset_b]) = .ok out)
          ↔ (s4 = [] ∧ ∀ m ∈ metas, ranges_valid names pals tiles m)) :=
  ⟨_, _, _, _, _, _, _, _, rfl, rfl, rfl, rfl,
    (read_succeeds_iff (write_sprite_assets [asset_a, asset_b]) _ _ _ _ _ _ _ _
      rfl rfl rfl rfl).1⟩

/-! ## Validation and construction -/

theorem read_step_of_first_bad_range (names : List Byte) (pals : List Palette)
    (tiles : List Tile) (out : List SpriteAsset) (m : StoredSprite) :
    read_step names pals tiles out m
      = match first_bad_range names pals tiles m with
        | some e => .error e
        | none => .ok (out ++ [asset_of names pals tiles m]) := by
  unfold read_step first_bad_range
  split
  · rfl
  · split
    · rfl
    · split
      · rfl
      · rfl

theorem foldlM_read_step_two_phase (names : List Byte) (pals : List Palette)
    (tiles : List Tile) (metas : List StoredSprite) :
    ∀ (out : List SpriteAsset),
      metas.foldlM (read_step names pals tiles) out
        = match validate_all names pals tiles metas with
          | some e => .error e
          | none => .ok (out ++ metas.map (asset_of names pals tiles)) := by
  induction metas with
  | nil => intro out; simp [validate_all, pure, Except.pure]
  | cons m rest ih =>
    intro out
    rw [List.foldlM_cons, read_step_of_first_bad_range, validate_all]
    cases hb : first_bad_range names pals tiles m with
    | some e => simp only [error_bind]
    | none =>
      simp only [ok_bind, ih]
      cases validate_all names pals tiles rest with
      | some e => rfl
      | none => simp

/-- C14: for every set of pools and descriptors, the result of the loop of
`read_sprite_assets` (the asset list, or the specific error) equals the result
of the two-phase procedure that first checks all descriptors in order (name,
then palette, then tile range for each) and only afterwards slices all
assets; and so does `read_sprite_assets` on every stream whose four chunks
are read and are followed by nothing. -/
theorem read_eq_two_phase (p : Pools) :
    read_pools p = two_phase_read p
      ∧ ∀ (src s1 s2 s3 : Stream),
          read_chunk byte_layout src tag_name = .ok (p.names, s1) →
          read_chunk palette_layout s1 tag_pal0 = .ok (p.pals, s2) →
          read_chunk tile_layout s2 tag_tile = .ok (p.tiles, s3) →
          read_chunk sprite_layout s3 tag_sprt = .ok (p.metas, []) →
          read_sprite_assets src = two_phase_read p := by
  have h : read_pools p = two_phase_read p := by
    rw [read_pools, foldlM_read_step_two_phase, two_phase_read]
    cases validate_all p.names p.pals p.tiles p.metas with
    | some e => rfl
    | none => simp [asset_of, slice]
  refine ⟨h, ?_⟩
  intro src s1 s2 s3 h1 h2 h3 h4
  simp only [read_sprite_assets, h1, h2, h3, h4]
  exact h

/-- C14, witness: the stream written for the assets "a" and "b". -/
theorem read_eq_two_phase_witness :
    read_sprite_assets (write_sprite_assets [asset_a, asset_b])
      = two_phase_read (collect_pools [asset_a, asset_b]) :=
  (read_eq_two_phase (collect_pools [asset_a, asset_b])).2
    (write_sprite_assets [asset_a, asset_b]) _ _ _ rfl rfl rfl rfl

/-- C18: for every asset list whose total name bytes, total palettes and
total tiles are each below 2^32, every descriptor emitted by
`write_sprite_assets` satisfies begin <= end <= size of the emitted pool for
all three ranges, and so passes every range check of `read_sprite_assets`
against the pools written in the same call. -/
theorem written_descriptors_valid (assets : List SpriteAsset)
    (hn : (assets.flatMap SpriteAsset.name).length < 4294967296)
    (hp : (assets.flatMap SpriteAsset.palettes).length < 4294967296)
    (ht : (assets.flatMap SpriteAsset.tiles).length < 4294967296) :
    ∀ m ∈ (collect_pools assets).metas,
      ranges_valid (collect_pools assets).names (collect_pools assets).pals
          (collect_pools assets).tiles m
        ∧ first_bad_range (collect_pools assets).names (collect_pools assets).pals
            (collect_pools assets).tiles m = none
        ∧ ∀ out, ∃ a, read_step (collect_pools assets).names (collect_pools assets).pals
            (collect_pools assets).tiles out m = .ok (out ++ [a]) := by
  have h := foldlM_read_step_descriptors assets [] [] [] [] (by simpa using hn)
    (by simpa using hp) (by simpa using ht)
  simp only [List.nil_append, List.length_nil] at h
  have hv := (foldlM_read_step_ok _ _ _ _ [] _ h).2
  intro m hm
  rw [collect_pools_eq] at hm ⊢
  obtain ⟨h1, h2, h3⟩ := hv m hm
  refine ⟨⟨h1, h2, h3⟩, ?_, fun out => ⟨_, read_step_ok _ _ _ out m h1 h2 h3⟩⟩
  unfold first_bad_range
  rw [if_neg (not_not.2 h1), if_neg (not_not.2 h2), if_neg (not_not.2 h3)]

/-- C18, witness: the second descriptor of the assets "a" and "b". -/
theorem written_descriptors_valid_witness :
    ([asset_a, asset_b].flatMap SpriteAsset.name).length < 4294967296
      ∧ ([asset_a, asset_b].flatMap SpriteAsset.palettes).length < 4294967296
      ∧ ([asset_a, asset_b].flatMap SpriteAsset.tiles).length < 4294967296
      ∧ (⟨1, 2, 1, 2, 2, 3⟩ : StoredSprite) ∈ (collect_pools [asset_a, asset_b]).metas
      ∧ ranges_valid (collect_pools [asset_a, asset_b]).names
          (collect_pools [asset_a, asset_b]).pals (collect_pools [asset_a, asset_b]).tiles
          ⟨1, 2, 1, 2, 2, 3⟩ :=
  ⟨by decide, by decide, by decide, by decide,
    (written_descriptors_valid [asset_a, asset_b] (by decide) (by decide) (by decide)
      ⟨1, 2, 1, 2, 2, 3⟩ (by decide)).1⟩

/-! ## The stores to the palette -/

/-- C16, the code at every input: whatever `unique_clr` holds, one of the
stores that `build_palette_and_tiles` makes to the palette is at index 4,
outside the 4-slot array. With at most 3 colours it is the last turn of the
loop of lines 68-70 (`i = 3`, store at `1 + i`). -/
theorem palette_stores_reach_four (unique_clr : List u8vec4) :
    ∃ s ∈ palette_stores unique_clr, s.1 = 4 := by
  match unique_clr with
  | [] => exact ⟨(4, transparent), by decide, rfl⟩
  | [a] => exact ⟨(4, transparent), by simp [palette_stores, List.range'], rfl⟩
  | [a, b] => exact ⟨(4, transparent), by simp [palette_stores, List.range'], rfl⟩
  | [a, b, c] => exact ⟨(4, transparent), by simp [palette_stores, List.range'], rfl⟩
  | a :: b :: c :: d :: rest =>
    refine ⟨(4, d), ?_, rfl⟩
    simp [palette_stores, List.enum, List.enumFrom]

/-! ## Failures of the second pass -/

theorem foldlM_error {ε σ β : Type} (f : σ → β → Except ε σ) (l : List β) (e : ε) :
    ∀ (s : σ), l.foldlM f s = .error e → ∃ b ∈ l, ∃ s1, f s1 b = .error e := by
  induction l with
  | nil => intro s h; simp [pure, Except.pure] at h
  | cons b rest ih =>
    intro s h
    rw [List.foldlM_cons] at h
    cases hf : f s b with
    | error e' =>
      rw [hf, error_bind] at h
      cases h
      exact ⟨b, List.mem_cons_self _ _, s, hf⟩
    | ok s' =>
      rw [hf, ok_bind] at h
      obtain ⟨b', hb', s1, h1⟩ := ih s' h
      exact ⟨b', List.mem_cons_of_mem _ hb', s1, h1⟩

theorem foldlM_ok_steps {ε σ β : Type} (f : σ → β → Except ε σ) (l : List β) :
    ∀ (s res : σ), l.foldlM f s = .ok res → ∀ b ∈ l, ∃ s1 s2, f s1 b = .ok s2 := by
  induction l with
  | nil => intro s res _ b hb; simp at hb
  | cons a rest ih =>
    intro s res h b hb
    rw [List.foldlM_cons] at h
    cases hf : f s a with
    | error e => rw [hf, error_bind] at h; cases h
    | ok s' =>
      rw [hf, ok_bind] at h
      rcases List.mem_cons.1 hb with rfl | hb'
      · exact ⟨s, s', hf⟩
      · exact ih s' res h b hb'

theorem palette_index_of_error (palette : Palette) (px : u8vec4) (e : QuantError)
    (h : palette_index_of palette px = .error e) : e = .not_in_palette := by
  by_cases ha : px.a.val < 128
  · rw [palette_index_of_transparent palette px ha] at h
    cases h
  · simp only [palette_index_of, ha, if_false] at h
    cases hfind : (List.range 3).find?
        (fun i => palette.get? (1 + i) == some (solid_of px)) with
    | some i => rw [hfind] at h; cases h
    | none => rw [hfind] at h; cases h; rfl

theorem palette_index_of_le (palette : Palette) (px : u8vec4) (idx : Nat)
    (h : palette_index_of palette px = .ok idx) : idx ≤ 3 := by
  by_cases ha : px.a.val < 128
  · rw [palette_index_of_transparent palette px ha] at h
    cases h
    omega
  · simp only [palette_index_of, ha, if_false] at h
    cases hfind : (List.range 3).find?
        (fun i => palette.get? (1 + i) == some (solid_of px)) with
    | some i =>
      rw [hfind] at h
      cases h
      have := List.mem_range.1 (List.mem_of_find?_eq_some hfind)
      omega
    | none => rw [hfind] at h; cases h

/-- A failing turn of the loop over `x`: either the pixel is outside the
vector, or `palette_index_of` throws for the pixel loaded. -/
theorem row_step_error (palette : Palette) (pixels : List u8vec4) (size : uvec2)
    (tx img_y x : Nat) (acc : Byte × Byte) (e : QuantError)
    (h : row_step palette pixels size tx img_y acc x = .error e) :
    (pixels[src_index size ((tx * 8 + x) % 4294967296) img_y]? = none
        ∧ e = .pixel_out_of_range)
      ∨ ∃ px, pixels[src_index size ((tx * 8 + x) % 4294967296) img_y]? = some px
          ∧ palette_index_of palette px = .error e := by
  unfold row_step at h
  cases hpx : pixels[src_index size ((tx * 8 + x) % 4294967296) img_y]? with
  | none =>
    simp only [hpx] at h
    cases h
    exact Or.inl ⟨rfl, rfl⟩
  | some px =>
    simp only [hpx] at h
    cases hidx : palette_index_of palette px with
    | error e' =>
      simp only [hidx] at h
      cases h
      exact Or.inr ⟨px, rfl, hidx⟩
    | ok idx => simp only [hidx] at h; cases h

/-- A failure of the two outer loops is a store outside the vector `tiles`,
or comes from a turn of the loop over `x` for a tile of the grid. -/
theorem build_tiles_error (palette : Palette) (pixels : List u8vec4) (size : uvec2)
    (e : QuantError) (h : build_tiles palette pixels size = .error e) :
    e = .tile_out_of_range
      ∨ ∃ tx ty x y acc, tx < size.x.val / 8 ∧ ty < size.y.val / 8 ∧ x < 8 ∧ y < 8
        ∧ row_step palette pixels size tx ((ty * 8 + y) % 4294967296) acc x = .error e := by
  unfold build_tiles at h
  obtain ⟨ty, hty, ts, hrow⟩ := foldlM_error _ _ e _ h
  obtain ⟨tx, htx, ts', hstep⟩ := foldlM_error _ _ e _ hrow
  rw [List.mem_range] at hty htx
  unfold tiles_step at hstep
  cases hbt : build_tile palette pixels size tx ty with
  | ok tile =>
    rw [hbt] at hstep
    simp only at hstep
    split at hstep
    · cases hstep
    · cases hstep
      exact Or.inl rfl
  | error e' =>
    rw [hbt] at hstep
    cases hstep
    unfold build_tile at hbt
    obtain ⟨y, hy, tile, hts⟩ := foldlM_error _ _ e _ hbt
    rw [List.mem_range] at hy
    unfold tile_step at hts
    cases hr : (List.range 8).foldlM
        (row_step palette pixels size tx ((ty * 8 + y) % 4294967296))
        ((0 : Byte), (0 : Byte)) with
    | ok b => simp only [hr] at hts; cases hts
    | error e'' =>
      simp only [hr] at hts
      cases hts
      obtain ⟨x, hx, acc, hxs⟩ := foldlM_error _ _ e _ hr
      rw [List.mem_range] at hx
      exact Or.inr ⟨tx, ty, x, y, acc, htx, hty, hx, hy, hxs⟩

theorem build_error_of_scan_ok (size : uvec2) (pixels : List u8vec4) (u : List u8vec4)
    (e : QuantError) (hs : scan_pixels pixels [] = .ok u)
    (h : build_palette_and_tiles size pixels = .error e) :
    build_tiles (fill_palette u) pixels size = .error e := by
  unfold build_palette_and_tiles at h
  rw [hs] at h
  simp only at h
  cases hb : build_tiles (fill_palette u) pixels size with
  | ok tiles => rw [hb] at h; cases h
  | error e' => rw [hb] at h; cases h; rfl

theorem scan_ok_eq (pixels u : List u8vec4) (hs : scan_pixels pixels [] = .ok u) :
    (first_seen (solid_colors pixels)).length ≤ 3 ∧ u = first_seen (solid_colors pixels) := by
  rw [scan_pixels_nil_acc] at hs
  by_cases hl : (first_seen (solid_colors pixels)).length ≤ 3
  · rw [if_pos hl] at hs
    cases hs
    exact ⟨hl, rfl⟩
  · rw [if_neg hl] at hs
    cases hs

/-- C11: for every image (a pixel vector of `width * height` elements),
`build_palette_and_tiles` never fails with "Found opaque pixel not in 3-color
palette."; and whenever the first pass succeeds with the colours
`unique_clr`, every load of the tiling loops is a pixel of the vector for
which `palette_index_of` returns an index, which for a pixel with alpha >= 128
is one of 1..3 and the slot that holds `(r, g, b, 255)` of the pixel. -/
theorem never_not_in_palette (size : uvec2) (pixels : List u8vec4)
    (hlen : pixels.length = size.x.val * size.y.val) :
    build_palette_and_tiles size pixels ≠ .error .not_in_palette
      ∧ ∀ unique_clr, scan_pixels pixels [] = .ok unique_clr →
          ∀ tx ty x y, tx < size.x.val / 8 → ty < size.y.val / 8 → x < 8 → y < 8 →
            ∃ px idx,
              pixels[src_index size ((tx * 8 + x) % 4294967296)
                  ((ty * 8 + y) % 4294967296)]? = some px
              ∧ palette_index_of (fill_palette unique_clr) px = .ok idx
              ∧ (128 ≤ px.a.val → 1 ≤ idx ∧ idx ≤ 3
                  ∧ (fill_palette unique_clr).get? idx
                    = some ⟨px.r, px.g, px.b, 255⟩) := by
  have hw := size.x.isLt
  have hh := size.y.isLt
  have hall : ∀ u, scan_pixels pixels [] = .ok u →
      ∀ px ∈ pixels, ∃ idx,
        palette_index_of (fill_palette u) px = .ok idx
        ∧ (128 ≤ px.a.val → 1 ≤ idx ∧ idx ≤ 3
            ∧ (fill_palette u).get? idx = some ⟨px.r, px.g, px.b, 255⟩) := by
    intro u hs px hpx
    obtain ⟨hu, rfl⟩ := scan_ok_eq pixels u hs
    obtain ⟨idx, hidx, h3, hzero, hcol⟩ := palette_index_of_ok pixels px hpx hu
    refine ⟨idx, hidx, fun ha => ⟨?_, h3, hcol ha⟩⟩
    by_contra h0
    have : idx = 0 := by omega
    have := hzero.1 this
    omega
  have hload : ∀ tx ty x y, tx < size.x.val / 8 → ty < size.y.val / 8 → x < 8 → y < 8 →
      src_index size ((tx * 8 + x) % 4294967296) ((ty * 8 + y) % 4294967296)
        < pixels.length := by
    intro tx ty x y htx hty hx hy
    rw [hlen, Nat.mod_eq_of_lt (by omega), Nat.mod_eq_of_lt (by omega)]
    exact src_index_lt size _ _ (by omega) (by omega)
  refine ⟨?_, ?_⟩
  · intro h
    cases hs : scan_pixels pixels [] with
    | error e =>
      unfold build_palette_and_tiles at h
      rw [hs] at h
      cases h
      rw [scan_pixels_nil_acc] at hs
      split at hs <;> cases hs
    | ok u =>
      have hb := build_error_of_scan_ok size pixels u _ hs h
      rcases build_tiles_error _ _ _ _ hb with he | ⟨tx, ty, x, y, acc, htx, hty, hx, hy, hrow⟩
      · cases he
      · rcases row_step_error _ _ _ _ _ _ _ _ hrow with ⟨hnone, _⟩ | ⟨px, hpx, hidx⟩
        · have := hload tx ty x y htx hty hx hy
          rw [List.getElem?_eq_none_iff] at hnone
          omega
        · obtain ⟨idx, hok, _⟩ := hall u hs px (List.getElem?_mem hpx)
          rw [hok] at hidx
          cases hidx
  · intro u hs tx ty x y htx hty hx hy
    have hi := hload tx ty x y htx hty hx hy
    obtain ⟨idx, hok, hsolid⟩ := hall u hs _ (List.getElem_mem hi)
    exact ⟨_, idx, List.getElem?_eq_getElem hi, hok, hsolid⟩

/-- C11, witness: the 8x8 image with one transparent pixel, and its pixel
(1, 1). -/
theorem never_not_in_palette_witness :
    example_image.length = (8 : U32).val * (8 : U32).val
      ∧ scan_pixels example_image [] = .ok [⟨200, 50, 50, 255⟩]
      ∧ ∃ px idx,
          example_image[src_index ⟨8, 8⟩ ((0 * 8 + 1) % 4294967296)
              ((0 * 8 + 1) % 4294967296)]? = some px
          ∧ palette_index_of (fill_palette [⟨200, 50, 50, 255⟩]) px = .ok idx
          ∧ (128 ≤ px.a.val → 1 ≤ idx ∧ idx ≤ 3
              ∧ (fill_palette [⟨200, 50, 50, 255⟩]).get? idx
                = some ⟨px.r, px.g, px.b, 255⟩) :=
  ⟨by decide, rfl,
    (never_not_in_palette ⟨8, 8⟩ example_image (by decide)).2 [⟨200, 50, 50, 255⟩] rfl
      0 0 1 1 (by decide) (by decide) (by decide) (by decide)⟩

/-- C17: for every width and height (multiples of 8 or not) and every pixel
vector of `width * height` elements, every index `y * width + x` that the
tiling loops load from is below the length of the vector, and
`build_palette_and_tiles` never stops at a load outside the vector. -/
theorem loads_in_bounds (size : uvec2) (pixels : List u8vec4)
    (hlen : pixels.length = size.x.val * size.y.val) :
    (∀ tx ty x y, tx < size.x.val / 8 → ty < size.y.val / 8 → x < 8 → y < 8 →
        src_index size ((tx * 8 + x) % 4294967296) ((ty * 8 + y) % 4294967296)
          < pixels.length)
      ∧ build_palette_and_tiles size pixels ≠ .error .pixel_out_of_range := by
  have hw := size.x.isLt
  have hh := size.y.isLt
  have hb : ∀ tx ty x y, tx < size.x.val / 8 → ty < size.y.val / 8 → x < 8 → y < 8 →
      src_index size ((tx * 8 + x) % 4294967296) ((ty * 8 + y) % 4294967296)
        < pixels.length := by
    intro tx ty x y htx hty hx hy
    rw [hlen, Nat.mod_eq_of_lt (by omega), Nat.mod_eq_of_lt (by omega)]
    exact src_index_lt size _ _ (by omega) (by omega)
  refine ⟨hb, ?_⟩
  intro h
  cases hs : scan_pixels pixels [] with
  | error e =>
    unfold build_palette_and_tiles at h
    rw [hs] at h
    cases h
    rw [scan_pixels_nil_acc] at hs
    split at hs <;> cases hs
  | ok u =>
    have hbt := build_error_of_scan_ok size pixels u _ hs h
    rcases build_tiles_error _ _ _ _ hbt with he | ⟨tx, ty, x, y, acc, htx, hty, hx, hy, hrow⟩
    · cases he
    · rcases row_step_error _ _ _ _ _ _ _ _ hrow with ⟨hnone, _⟩ | ⟨px, _, hidx⟩
      · have := hb tx ty x y htx hty hx hy
        rw [List.getElem?_eq_none_iff] at hnone
        omega
      · have := palette_index_of_error _ _ _ hidx
        cases this

/-- C17, witness: a 9x10 image, of one tile. -/
theorem loads_in_bounds_witness :
    (List.replicate 90 transparent).length = (9 : U32).val * (10 : U32).val
      ∧ build_palette_and_tiles ⟨9, 10⟩ (List.replicate 90 transparent)
          ≠ .error .pixel_out_of_range :=
  ⟨by decide, (loads_in_bounds ⟨9, 10⟩ (List.replicate 90 transparent) (by decide)).2⟩

/-! ## The grid of tiles -/

theorem row_step_ok_classified (palette : Palette) (pixels : List u8vec4) (size : uvec2)
    (tx img_y x : Nat) (acc r : Byte × Byte)
    (h : row_step palette pixels size tx img_y acc x = .ok r) :
    Classified palette pixels size ((tx * 8 + x) % 4294967296) img_y := by
  unfold row_step at h
  cases hpx : pixels[src_index size ((tx * 8 + x) % 4294967296) img_y]? with
  | none => simp only [hpx] at h; cases h
  | some px =>
    simp only [hpx] at h
    cases hidx : palette_index_of palette px with
    | error e => simp only [hidx] at h; cases h
    | ok idx => exact ⟨px, idx, hpx, hidx⟩

/-- When the two outer loops end, every pixel of every tile of the grid was
inside the vector and had an index. -/
theorem build_tiles_ok_classified (palette : Palette) (pixels : List u8vec4) (size : uvec2)
    (tiles : List Tile) (h : build_tiles palette pixels size = .ok tiles) :
    ∀ tx ty x y, tx < size.x.val / 8 → ty < size.y.val / 8 → x < 8 → y < 8 →
      Classified palette pixels size (tx * 8 + x) (ty * 8 + y) := by
  intro tx ty x y htx hty hx hy
  have hw := size.x.isLt
  have hh := size.y.isLt
  unfold build_tiles at h
  obtain ⟨ts1, ts2, hrow⟩ := foldlM_ok_steps _ _ _ _ h ty (List.mem_range.2 hty)
  obtain ⟨ts3, ts4, hstep⟩ := foldlM_ok_steps _ _ _ _ hrow tx (List.mem_range.2 htx)
  unfold tiles_step at hstep
  cases hbt : build_tile palette pixels size tx ty with
  | error e => rw [hbt] at hstep; cases hstep
  | ok tile =>
    unfold build_tile at hbt
    obtain ⟨t1, t2, hts⟩ := foldlM_ok_steps _ _ _ _ hbt y (List.mem_range.2 hy)
    unfold tile_step at hts
    cases hr : (List.range 8).foldlM
        (row_step palette pixels size tx ((ty * 8 + y) % 4294967296))
        ((0 : Byte), (0 : Byte)) with
    | error e => simp only [hr] at hts; cases hts
    | ok b =>
      obtain ⟨a1, a2, hxs⟩ := foldlM_ok_steps _ _ _ _ hr x (List.mem_range.2 hx)
      have hc := row_step_ok_classified _ _ _ _ _ _ _ _ hxs
      rw [Nat.mod_eq_of_lt (by omega), Nat.mod_eq_of_lt (by omega)] at hc
      exact hc

theorem tiles_step_length (palette : Palette) (pixels : List u8vec4) (size : uvec2)
    (ty tx : Nat) (ts ts' : List Tile)
    (h : tiles_step palette pixels size ty ts tx = .ok ts') : ts'.length = ts.length := by
  unfold tiles_step at h
  cases hbt : build_tile palette pixels size tx ty with
  | error e => rw [hbt] at h; cases h
  | ok tile =>
    rw [hbt] at h
    simp only at h
    split at h
    · cases h
      exact List.length_set _ _ _
    · cases h

theorem foldlM_ok_steps_inv {ε σ β : Type} (f : σ → β → Except ε σ) (P : σ → Prop)
    (hP : ∀ s b s', f s b = .ok s' → P s → P s') (l : List β) :
    ∀ (s res : σ), P s → l.foldlM f s = .ok res →
      ∀ b ∈ l, ∃ s1 s2, P s1 ∧ f s1 b = .ok s2 := by
  induction l with
  | nil => intro s res _ _ b hb; simp at hb
  | cons a rest ih =>
    intro s res hs h b hb
    rw [List.foldlM_cons] at h
    cases hf : f s a with
    | error e => rw [hf, error_bind] at h; cases h
    | ok s' =>
      rw [hf, ok_bind] at h
      rcases List.mem_cons.1 hb with rfl | hb'
      · exact ⟨s, s', hs, hf⟩
      · exact ih s' res (hP s a s' hf hs) h b hb'

/-- When the two outer loops end, `tiles_x * tiles_y` did not wrap: with a
product of 2^32 or more the vector has fewer elements than the indices
`ty * tiles_x + tx` in `uint32_t` take values, and the turn that stores at
the index equal to the length of the vector is a store outside it. -/
theorem build_tiles_ok_no_wrap (palette : Palette) (pixels : List u8vec4) (size : uvec2)
    (tiles : List Tile) (h : build_tiles palette pixels size = .ok tiles) :
    size.x.val / 8 * (size.y.val / 8) < 4294967296 := by
  by_contra hge
  have hge' : 4294967296 ≤ size.x.val / 8 * (size.y.val / 8) := by omega
  have hN : (size.x.val / 8 * (size.y.val / 8)) % 4294967296 < 4294967296 :=
    Nat.mod_lt _ (by decide)
  have hpos : 0 < size.x.val / 8 := by
    rcases Nat.eq_zero_or_pos (size.x.val / 8) with h0 | hp
    · rw [h0, Nat.zero_mul] at hge'
      omega
    · exact hp
  have htx : (size.x.val / 8 * (size.y.val / 8)) % 4294967296 % (size.x.val / 8)
      < size.x.val / 8 := Nat.mod_lt _ hpos
  have hty : (size.x.val / 8 * (size.y.val / 8)) % 4294967296 / (size.x.val / 8)
      < size.y.val / 8 := by
    rw [Nat.div_lt_iff_lt_mul hpos]
    calc (size.x.val / 8 * (size.y.val / 8)) % 4294967296 < 4294967296 := hN
      _ ≤ size.x.val / 8 * (size.y.val / 8) := hge'
      _ = size.y.val / 8 * (size.x.val / 8) := Nat.mul_comm _ _
  have hsum := Nat.div_add_mod' ((size.x.val / 8 * (size.y.val / 8)) % 4294967296)
    (size.x.val / 8)
  unfold build_tiles at h
  have hinner : ∀ (ts : List Tile) (ty : Nat) (ts' : List Tile),
      (List.range (size.x.val / 8)).foldlM (tiles_step palette pixels size ty) ts = .ok ts' →
      ts.length = (size.x.val / 8 * (size.y.val / 8)) % 4294967296 →
      ts'.length = (size.x.val / 8 * (size.y.val / 8)) % 4294967296 := by
    intro ts ty ts' hrow hts
    exact foldlM_invariant _
      (fun ts : List Tile => ts.length = (size.x.val / 8 * (size.y.val / 8)) % 4294967296)
      (fun s b s' hs hl => (tiles_step_length palette pixels size ty b s s' hs).trans hl)
      _ _ _ hts hrow
  obtain ⟨s1, s2, hs1, hrow⟩ := foldlM_ok_steps_inv _
    (fun ts : List Tile => ts.length = (size.x.val / 8 * (size.y.val / 8)) % 4294967296)
    hinner _ _ _ (List.length_replicate _ _) h _ (List.mem_range.2 hty)
  obtain ⟨s3, s4, hs3, hstep⟩ := foldlM_ok_steps_inv _
    (fun ts : List Tile => ts.length = (size.x.val / 8 * (size.y.val / 8)) % 4294967296)
    (fun s b s' hs hl => (tiles_step_length palette pixels size _ b s s' hs).trans hl)
    _ _ _ hs1 hrow _ (List.mem_range.2 htx)
  unfold tiles_step at hstep
  cases hbt : build_tile palette pixels size
      ((size.x.val / 8 * (size.y.val / 8)) % 4294967296 % (size.x.val / 8))
      ((size.x.val / 8 * (size.y.val / 8)) % 4294967296 / (size.x.val / 8)) with
  | error e => rw [hbt] at hstep; cases hstep
  | ok tile =>
    rw [hbt] at hstep
    simp only at hstep
    have hs3' : s3.length = (size.x.val / 8 * (size.y.val / 8)) % 4294967296 := hs3
    rw [hsum, Nat.mod_eq_of_lt hN, hs3', if_neg (Nat.lt_irrefl _)] at hstep
    cases hstep

theorem build_tiles_ok_eq (palette : Palette) (pixels : List u8vec4) (size : uvec2)
    (tiles : List Tile) (h : build_tiles palette pixels size = .ok tiles) :
    tiles = tiles_of palette pixels size := by
  have hc := build_tiles_ok_classified palette pixels size tiles h
  have hb := build_tiles_ok_no_wrap palette pixels size tiles h
  have he := build_tiles_eq palette pixels size hb (by
    intro X Y hX hY
    have := hc (X / 8) (Y / 8) (X % 8) (Y % 8) (by omega) (by omega) (by omega) (by omega)
    rw [show X / 8 * 8 + X % 8 = X by omega, show Y / 8 * 8 + Y % 8 = Y by omega] at this
    exact this)
  rw [he] at h
  cases h
  rfl

theorem build_ok_inv (size : uvec2) (pixels : List u8vec4) (r : PackedTiles)
    (h : build_palette_and_tiles size pixels = .ok r) :
    build_tiles r.palette pixels size = .ok r.tiles := by
  unfold build_palette_and_tiles at h
  cases hs : scan_pixels pixels [] with
  | error e => rw [hs] at h; cases h
  | ok u =>
    rw [hs] at h
    simp only at h
    cases hb : build_tiles (fill_palette u) pixels size with
    | error e => rw [hb] at h; cases h
    | ok tiles =>
      rw [hb] at h
      cases h
      exact hb

theorem bit_of_testBit (idx : Nat) (h : idx ≤ 3) :
    decide (bit_of idx 1 = 1) = idx.testBit 0 ∧ decide (bit_of idx 2 = 1) = idx.testBit 1 := by
  interval_cases idx <;> decide

/-- C15: on every width, height and pixel vector on which
`build_palette_and_tiles` succeeds, the result has exactly
`(width/8) * (height/8)` tiles, and the tile stored at index
`ty * (width/8) + tx` is the one built from the pixel region
`[tx*8, tx*8+8) x [ty*8, ty*8+8)`: bit `x` of `bit0[y]` and of `bit1[y]` is
bit 0 and bit 1 of the index of pixel `(tx*8 + x, ty*8 + y)` of the vector,
a pixel that the vector holds whenever it has `width * height` elements. -/
theorem build_tile_grid (size : uvec2) (pixels : List u8vec4) (r : PackedTiles)
    (h : build_palette_and_tiles size pixels = .ok r) :
    r.tiles.length = size.x.val / 8 * (size.y.val / 8)
      ∧ ∀ tx ty, tx < size.x.val / 8 → ty < size.y.val / 8 →
          ∃ tile, r.tiles[ty * (size.x.val / 8) + tx]? = some tile
            ∧ ∀ x y, x < 8 → y < 8 →
                ∃ b0 b1,
                  tile.bit0.get? y = some b0
                  ∧ tile.bit1.get? y = some b1
                  ∧ (pixels.length = size.x.val * size.y.val →
                      ∃ px, pixels[(ty * 8 + y) * size.x.val + (tx * 8 + x)]? = some px)
                  ∧ ∀ px, pixels[(ty * 8 + y) * size.x.val + (tx * 8 + x)]? = some px →
                      ∃ idx, palette_index_of r.palette px = .ok idx
                        ∧ b0.val.testBit x = idx.testBit 0
                        ∧ b1.val.testBit x = idx.testBit 1 := by
  have hlen := build_ok_tiles_length size pixels r h
  have hbt := build_ok_inv size pixels r h
  have hb := build_tiles_ok_no_wrap r.palette pixels size r.tiles hbt
  have hc := build_tiles_ok_classified r.palette pixels size r.tiles hbt
  have he := build_tiles_ok_eq r.palette pixels size r.tiles hbt
  refine ⟨by rw [hlen, Nat.mod_eq_of_lt hb], ?_⟩
  intro tx ty htx hty
  refine ⟨tile_of r.palette pixels size tx ty, ?_, ?_⟩
  · rw [he]; exact tiles_of_getElem? r.palette pixels size tx ty hb htx hty
  · intro x y hx hy
    obtain ⟨g0, g1⟩ := foldl_tile_next_get? r.palette pixels size tx ty (List.range 8) y hy
      zero_tile
    rw [if_pos (List.mem_range.2 hy)] at g0 g1
    refine ⟨_, _, g0, g1, ?_, ?_⟩
    · intro hpl
      have hi : src_index size (tx * 8 + x) (ty * 8 + y) < pixels.length := by
        rw [hpl]; exact src_index_lt size _ _ (by omega) (by omega)
      exact ⟨_, List.getElem?_eq_getElem hi⟩
    · intro px hpx
      obtain ⟨px', idx, hpx', hidx⟩ := hc tx ty x y htx hty hx hy
      have hsame : px' = px := by
        have e : pixels[src_index size (tx * 8 + x) (ty * 8 + y)]? = some px := hpx
        rw [hpx'] at e
        exact Option.some.inj e
      subst hsame
      have hat := index_at_eq r.palette pixels size _ _ px' idx hpx' hidx
      obtain ⟨t0, t1⟩ := row_bytes_testBit r.palette pixels size tx (ty * 8 + y) x hx
      obtain ⟨e0, e1⟩ := bit_of_testBit idx (palette_index_of_le _ _ _ hidx)
      refine ⟨idx, hidx, ?_, ?_⟩
      · rw [t0, hat, e0]
      · rw [t1, hat, e1]

/-- C15, witness: the 8x8 image with one transparent pixel has one tile. -/
theorem build_tile_grid_witness :
    ∃ r, build_palette_and_tiles ⟨8, 8⟩ example_image = .ok r
      ∧ r.tiles.length = (8 : U32).val / 8 * ((8 : U32).val / 8) :=
  ⟨⟨fill_palette [⟨200, 50, 50, 255⟩], tiles_of (fill_palette [⟨200, 50, 50, 255⟩])
      example_image ⟨8, 8⟩⟩, rfl,
    (build_tile_grid ⟨8, 8⟩ example_image _ rfl).1⟩

/-- C10, the code at the failing input: for the image of 2^19 by 2^19
transparent pixels all hypotheses of the claim hold, but `tiles_x * tiles_y`
is 2^32, which is 0 in `uint32_t`: after `tiles.resize(0)` the store of line
112 is outside the vector, and the function returns no result. -/
theorem build_all_transparent_wrapped :
    huge_size.x.val % 8 = 0 ∧ huge_size.y.val % 8 = 0
      ∧ huge_image.length = huge_size.x.val * huge_size.y.val
      ∧ (∀ px ∈ huge_image, px.a.val < 128)
      ∧ ¬ ∃ r, build_palette_and_tiles huge_size huge_image = .ok r := by
  have hlen : huge_image.length = 274877906944 := List.length_replicate _ _
  have hprod : huge_size.x.val * huge_size.y.val = 274877906944 := by decide
  refine ⟨by decide, by decide, hlen.trans hprod.symm, ?_, ?_⟩
  · intro px hpx
    rw [List.eq_of_mem_replicate hpx]
    decide
  · rintro ⟨r, hr⟩
    have hb := build_tiles_ok_no_wrap _ _ _ _ (build_ok_inv huge_size huge_image r hr)
    exact absurd hb (by decide)

/-! ## What the function reads of a pixel -/

theorem solid_of_solid_of (px : u8vec4) : solid_of (solid_of px) = solid_of px := rfl

theorem scan_pixels_map_canonical (pixels : List u8vec4) :
    ∀ (u : List u8vec4), scan_pixels (pixels.map canonical) u = scan_pixels pixels u := by
  induction pixels with
  | nil => intro u; rfl
  | cons px rest ih =>
    intro u
    by_cases ha : px.a.val < 128
    · have hc : canonical px = transparent := by simp [canonical, ha]
      have ht : transparent.a.val < 128 := by decide
      simp only [List.map_cons, scan_pixels, hc, ht, ha, if_true, ih]
    · have hc : canonical px = solid_of px := by simp [canonical, ha]
      have hs : ¬ (solid_of px).a.val < 128 := by
        show ¬ (255 : Byte).val < 128
        decide
      simp only [List.map_cons, scan_pixels, hc, hs, ha, if_false, ih, solid_of_solid_of]

theorem palette_index_of_canonical (palette : Palette) (px : u8vec4) :
    palette_index_of palette (canonical px) = palette_index_of palette px := by
  by_cases ha : px.a.val < 128
  · have hc : canonical px = transparent := by simp [canonical, ha]
    rw [hc, palette_index_of_transparent palette px ha,
      palette_index_of_transparent palette transparent (by decide)]
  · have hc : canonical px = solid_of px := by simp [canonical, ha]
    have hs : ¬ (solid_of px).a.val < 128 := by
        show ¬ (255 : Byte).val < 128
        decide
    simp only [hc, palette_index_of, hs, ha, if_false, solid_of_solid_of]

theorem row_step_map_canonical (palette : Palette) (pixels : List u8vec4) (size : uvec2)
    (tx img_y : Nat) :
    row_step palette (pixels.map canonical) size tx img_y
      = row_step palette pixels size tx img_y := by
  funext acc x
  unfold row_step
  simp only [List.getElem?_map]
  cases pixels[src_index size ((tx * 8 + x) % 4294967296) img_y]? with
  | none => rfl
  | some px => simp only [Option.map_some', palette_index_of_canonical]

theorem build_tiles_map_canonical (palette : Palette) (pixels : List u8vec4) (size : uvec2) :
    build_tiles palette (pixels.map canonical) size = build_tiles palette pixels size := by
  have h1 : tile_step palette (pixels.map canonical) size
      = tile_step palette pixels size := by
    funext tx ty tile y
    simp only [tile_step, row_step_map_canonical]
  have h2 : build_tile palette (pixels.map canonical) size
      = build_tile palette pixels size := by
    funext tx ty
    simp only [build_tile, h1]
  have h3 : tiles_step palette (pixels.map canonical) size
      = tiles_step palette pixels size := by
    funext ty tiles tx
    simp only [tiles_step, h2]
  simp only [build_tiles, h3]

/-- The result for an image is the result for the image of what the function
reads of each pixel. -/
theorem build_map_canonical (size : uvec2) (pixels : List u8vec4) :
    build_palette_and_tiles size (pixels.map canonical)
      = build_palette_and_tiles size pixels := by
  simp only [build_palette_and_tiles, scan_pixels_map_canonical, build_tiles_map_canonical]

theorem canonical_eq_of_agree (a b : u8vec4) (hc : a.a.val < 128 ↔ b.a.val < 128)
    (hrgb : 128 ≤ a.a.val → a.r = b.r ∧ a.g = b.g ∧ a.b = b.b) :
    canonical a = canonical b := by
  by_cases ha : a.a.val < 128
  · simp [canonical, ha, hc.1 ha]
  · have hb : ¬ b.a.val < 128 := fun h => ha (hc.2 h)
    obtain ⟨h1, h2, h3⟩ := hrgb (by omega)
    simp [canonical, ha, hb, solid_of, h1, h2, h3]

/-- C19: for every two images of the same dimensions (two pixel vectors of
`width * height` elements) that agree pixel by pixel on whether alpha >= 128
and, where it is, on (r, g, b), `build_palette_and_tiles` gives the same
result: the same error, or the same palette and the same tiles. -/
theorem build_depends_on_class_and_rgb (size : uvec2) (p q : List u8vec4)
    (hp : p.length = size.x.val * size.y.val)
    (hq : q.length = size.x.val * size.y.val)
    (hagree : ∀ (i : Nat) (a b : u8vec4), p[i]? = some a → q[i]? = some b →
      (a.a.val < 128 ↔ b.a.val < 128)
        ∧ (128 ≤ a.a.val → a.r = b.r ∧ a.g = b.g ∧ a.b = b.b)) :
    build_palette_and_tiles size p = build_palette_and_tiles size q := by
  have hlen : p.length = q.length := hp.trans hq.symm
  have hmap : p.map canonical = q.map canonical := by
    apply List.ext_getElem?
    intro i
    simp only [List.getElem?_map]
    by_cases hi : i < p.length
    · have hi' : i < q.length := hlen ▸ hi
      rw [List.getElem?_eq_getElem hi, List.getElem?_eq_getElem hi']
      obtain ⟨h1, h2⟩ := hagree i p[i] q[i] (List.getElem?_eq_getElem hi)
        (List.getElem?_eq_getElem hi')
      simp only [Option.map_some', canonical_eq_of_agree _ _ h1 h2]
    · have hi' : ¬ i < q.length := hlen ▸ hi
      rw [List.getElem?_eq_none (by omega), List.getElem?_eq_none (by omega)]
  rw [← build_map_canonical size p, ← build_map_canonical size q, hmap]

theorem dim_pixel_agrees (a : u8vec4) :
    (a.a.val < 128 ↔ (dim_pixel a).a.val < 128)
      ∧ (128 ≤ a.a.val →
          a.r = (dim_pixel a).r ∧ a.g = (dim_pixel a).g ∧ a.b = (dim_pixel a).b) := by
  by_cases ha : a.a.val < 128
  · have hd : dim_pixel a = ⟨1, 2, 3, 100⟩ := by simp [dim_pixel, ha]
    rw [hd]
    exact ⟨⟨fun _ => by decide, fun _ => ha⟩, fun h => absurd ha (by omega)⟩
  · have hd : dim_pixel a = ⟨a.r, a.g, a.b, 128⟩ := by simp [dim_pixel, ha]
    rw [hd]
    exact ⟨⟨fun h => absurd h ha, fun h => absurd h (show ¬ (128 : Byte).val < 128 by decide)⟩,
      fun _ => ⟨rfl, rfl, rfl⟩⟩

theorem example_image_dim_agrees :
    ∀ (i : Nat) (a b : u8vec4), example_image[i]? = some a →
      (example_image.map dim_pixel)[i]? = some b →
      (a.a.val < 128 ↔ b.a.val < 128)
        ∧ (128 ≤ a.a.val → a.r = b.r ∧ a.g = b.g ∧ a.b = b.b) := by
  intro i a b ha hb
  rw [List.getElem?_map, ha] at hb
  cases hb
  exact dim_pixel_agrees a

/-- C19, witness: the 8x8 image with one transparent pixel, and the same
image with every solid alpha set to 128 and the transparent pixel replaced by
(1,2,3,100). -/
theorem build_depends_on_class_and_rgb_witness :
    example_image.length = (8 : U32).val * (8 : U32).val
      ∧ (example_image.map dim_pixel).length = (8 : U32).val * (8 : U32).val
      ∧ (∃ r, build_palette_and_tiles ⟨8, 8⟩ example_image = .ok r)
      ∧ example_image ≠ example_image.map dim_pixel
      ∧ build_palette_and_tiles ⟨8, 8⟩ example_image
          = build_palette_and_tiles ⟨8, 8⟩ (example_image.map dim_pixel) :=
  ⟨by decide, by decide, ⟨_, rfl⟩, by decide,
    build_depends_on_class_and_rgb ⟨8, 8⟩ example_image (example_image.map dim_pixel)
      (by decide) (by decide) example_image_dim_agrees⟩

end Pipeline
